import Mathlib

/-!
Verification of the paper-trading core of `forex_2026` against a shallow
embedding of its Python sources (`database.py`, `portfolio.py`,
`strategies.py`).  Monetary and price values are modelled as exact
rationals (`ℚ`); the SQLite tables are modelled as explicit in-memory
state; the `numpy` NaN sentinel is modelled as `Option`.
-/

namespace Forex

/-! ## Rounding helpers

Python's builtin `round(x, n)` rounds half to even; `decimal`'s
`ROUND_HALF_UP` rounds ties away from zero.  Both are modelled exactly
over `ℚ`. -/

/-- Round a rational to the nearest integer, ties to even (Python `round`). -/
def roundHalfEven (x : ℚ) : ℤ :=
  let f := ⌊x⌋
  if x - f < 1/2 then f
  else if 1/2 < x - f then f + 1
  else if Even f then f else f + 1

/-- Python `round(x, 2)`. -/
def round2 (x : ℚ) : ℚ := (roundHalfEven (100 * x) : ℚ) / 100

/-- Python `round(x, 1)`. -/
def round1 (x : ℚ) : ℚ := (roundHalfEven (10 * x) : ℚ) / 10

/-- Python `round(x, 6)`. -/
def round6 (x : ℚ) : ℚ := (roundHalfEven (1000000 * x) : ℚ) / 1000000

/-- `Decimal.quantize(Decimal("0.1"), rounding=ROUND_HALF_UP)`:
one decimal place, ties away from zero. -/
def quantTenthHalfUp (x : ℚ) : ℚ :=
  if 0 ≤ x then (⌊10 * x + 1/2⌋ : ℚ) / 10 else -((⌊-(10 * x) + 1/2⌋ : ℚ) / 10)

/-! ## Ledger state (`database.py`)

The `portfolio` table (one row per coin) is an association list keyed by
coin; the `trades` table is an append-only list (append at the tail, so
autoincrement-id order is list order); `portfolio_meta`'s single
`cash_balance` row is the `cash` field (the code's `if row else 10000.0`
default never fires once `init_db` has run, so cash is always present). -/

structure Position where
  amount : ℚ
  avg_entry_price : ℚ
  total_cost : ℚ
deriving DecidableEq

structure Trade where
  coin : String
  side : String
  amount : ℚ
  price : ℚ
  total_usd : ℚ
deriving DecidableEq

structure LedgerState where
  cash : ℚ
  portfolio : List (String × Position)
  trades : List Trade
deriving DecidableEq

/-- Result row of `execute_trade_atomic`: the `success` flag and the
`error` message (the source interpolates the available amount into the
message; only its fixed prefix is modelled). -/
structure TradeResult where
  success : Bool
  error : Option String
deriving DecidableEq

/-- The dust threshold `0.00000001` from `database.py`. -/
def dust : ℚ := 1 / 100000000

/-- SQL `UPDATE ... WHERE coin = ?` / `INSERT` of one portfolio row: replace
the row in place if the key exists, else append a fresh row. -/
def setPos (coin : String) (p : Position) : List (String × Position) → List (String × Position)
  | [] => [(coin, p)]
  | (c, q) :: rest => if c = coin then (c, p) :: rest else (c, q) :: setPos coin p rest

/-- `database.execute_trade_atomic` (lines 209-311).  A failure performs a
`ROLLBACK`, i.e. returns the state unchanged.  Any `side` other than
`"buy"` takes the sell branch, exactly as the source's `if/else`. -/
def execute_trade_atomic (coin_id side : String) (qty price amount_usd : ℚ)
    (s : LedgerState) : TradeResult × LedgerState :=
  if side = "buy" then
    let cash := s.cash
    if amount_usd > cash then
      (⟨false, some "Insufficient cash"⟩, s)
    else
      let pf :=
        match List.lookup coin_id s.portfolio with
        | some pos =>
            let new_amount := pos.amount + qty
            let new_cost := pos.total_cost + amount_usd
            let new_avg := if 0 < new_amount then new_cost / new_amount else 0
            setPos coin_id ⟨new_amount, new_avg, new_cost⟩ s.portfolio
        | none =>
            let avg_price := if 0 < qty then amount_usd / qty else 0
            setPos coin_id ⟨qty, avg_price, amount_usd⟩ s.portfolio
      (⟨true, none⟩,
       ⟨cash - amount_usd, pf, s.trades ++ [⟨coin_id, "buy", qty, price, amount_usd⟩]⟩)
  else
    match List.lookup coin_id s.portfolio with
    | none => (⟨false, some "Insufficient holdings"⟩, s)
    | some pos =>
      if pos.amount < qty then (⟨false, some "Insufficient holdings"⟩, s)
      else
        let cost_basis := qty * pos.avg_entry_price
        let na := pos.amount - qty
        let nc := pos.total_cost - cost_basis
        let new_amount := if na < dust then 0 else na
        let new_cost := if na < dust then 0 else nc
        let new_avg := if 0 < new_amount then new_cost / new_amount else 0
        (⟨true, none⟩,
         ⟨s.cash + amount_usd,
          setPos coin_id ⟨new_amount, new_avg, new_cost⟩ s.portfolio,
          s.trades ++ [⟨coin_id, "sell", qty, price, amount_usd⟩]⟩)

/-- `database.update_position` (lines 107-134), acting on the portfolio
table alone. -/
def update_position (coin : String) (amount_delta cost_delta : ℚ)
    (pf : List (String × Position)) : List (String × Position) :=
  match List.lookup coin pf with
  | some pos =>
      let na := pos.amount + amount_delta
      let nc := pos.total_cost + cost_delta
      let new_amount := if na < dust then 0 else na
      let new_cost := if na < dust then 0 else nc
      let new_avg := if 0 < new_amount then new_cost / new_amount else 0
      setPos coin ⟨new_amount, new_avg, new_cost⟩ pf
  | none =>
      let avg_price := if 0 < amount_delta then cost_delta / amount_delta else 0
      setPos coin ⟨amount_delta, avg_price, cost_delta⟩ pf

/-- One requested order, as passed to `execute_trade_atomic`. -/
structure TradeReq where
  coin : String
  side : String
  qty : ℚ
  price : ℚ
  amount_usd : ℚ
deriving DecidableEq

/-- Run a sequence of orders through `execute_trade_atomic`, keeping only
the evolving state (each call's result is whatever it is; failed calls
leave the state unchanged). -/
def applyTrades (l : List TradeReq) (s : LedgerState) : LedgerState :=
  l.foldl (fun st r => (execute_trade_atomic r.coin r.side r.qty r.price r.amount_usd st).2) s

/-! ### Ledger helper lemmas -/

theorem lookup_setPos_self (coin : String) (p : Position) :
    ∀ l : List (String × Position), List.lookup coin (setPos coin p l) = some p := by
  intro l
  induction l with
  | nil => simp [setPos, List.lookup]
  | cons hd tl ih =>
    obtain ⟨c, q⟩ := hd
    by_cases h : c = coin
    · subst h; simp [setPos, List.lookup]
    · have hb : (coin == c) = false := beq_eq_false_iff_ne.mpr (Ne.symm h)
      simp [setPos, h, List.lookup, hb, ih]

theorem lookup_setPos_ne (coin c' : String) (p : Position) (h : c' ≠ coin) :
    ∀ l : List (String × Position),
      List.lookup c' (setPos coin p l) = List.lookup c' l := by
  intro l
  have hb : (c' == coin) = false := beq_eq_false_iff_ne.mpr h
  induction l with
  | nil => simp [setPos, List.lookup, hb]
  | cons hd tl ih =>
    obtain ⟨c, q⟩ := hd
    by_cases hc : c = coin
    · subst hc
      simp [setPos, List.lookup, hb]
    · simp only [setPos, if_neg hc, List.lookup]
      cases hcc : c' == c with
      | true => rfl
      | false => exact ih

/-- Cash evolution of a single `execute_trade_atomic` call: a buy that
passes the funds check debits `amount_usd`, a successful sell credits
`amount_usd`, and any failure leaves cash unchanged. -/
theorem cash_step_nonneg (coin side : String) (qty price usd : ℚ) (s : LedgerState)
    (h0 : 0 ≤ s.cash) (hu : 0 < usd) :
    0 ≤ (execute_trade_atomic coin side qty price usd s).2.cash := by
  unfold execute_trade_atomic
  by_cases hside : side = "buy"
  · rw [if_pos hside]
    by_cases hc : usd > s.cash
    · rw [if_pos hc]; exact h0
    · rw [if_neg hc]
      push_neg at hc
      cases List.lookup coin s.portfolio <;> · simp only; linarith
  · rw [if_neg hside]
    cases hl : List.lookup coin s.portfolio with
    | none => exact h0
    | some pos =>
      dsimp only
      by_cases hq : pos.amount < qty
      · rw [if_pos hq]; exact h0
      · rw [if_neg hq]; dsimp only; linarith

/-- Per-position bookkeeping invariant of the data model: amounts and
costs are non-negative, `amount = 0` exactly when `total_cost = 0`, and a
non-empty position's average entry price is `total_cost / amount`. -/
def PosInv (p : Position) : Prop :=
  0 ≤ p.amount ∧ 0 ≤ p.total_cost ∧ (p.amount = 0 ↔ p.total_cost = 0) ∧
  (0 < p.amount → p.avg_entry_price = p.total_cost / p.amount)

/-- Every position row of the ledger satisfies `PosInv`. -/
def LedgerInv (s : LedgerState) : Prop :=
  ∀ c p, List.lookup c s.portfolio = some p → PosInv p

/-! ## Claim theorems on the ledger -/

/-- C1: a sell order for a coin with no position row, or whose position
amount is strictly below the requested quantity, fails with the
insufficient-holdings error and leaves the whole ledger state (cash,
every position, trade log) unchanged; no trade record is appended. -/
theorem C1_sell_insufficient_holdings_no_mutation (coin : String) (qty price usd : ℚ)
    (s : LedgerState) (h : ∀ p, List.lookup coin s.portfolio = some p → p.amount < qty) :
    execute_trade_atomic coin "sell" qty price usd s =
      (⟨false, some "Insufficient holdings"⟩, s) := by
  unfold execute_trade_atomic
  rw [if_neg (by decide : ¬ ("sell" = "buy"))]
  cases hl : List.lookup coin s.portfolio with
  | none => rfl
  | some pos =>
    dsimp only
    rw [if_pos (h pos hl)]

/-- C1 witness: selling 0.03 of a coin while holding only 0.02 fails with
no state change (Scenario C). -/
theorem C1_sell_insufficient_holdings_no_mutation_witness :
    (∀ p, List.lookup "btc"
        (LedgerState.mk 10000 [("btc", ⟨1/50, 50000, 1000⟩)] []).portfolio = some p →
        p.amount < 3/100) ∧
    execute_trade_atomic "btc" "sell" (3/100) 60000 1800
        (LedgerState.mk 10000 [("btc", ⟨1/50, 50000, 1000⟩)] []) =
      (⟨false, some "Insufficient holdings"⟩,
       LedgerState.mk 10000 [("btc", ⟨1/50, 50000, 1000⟩)] []) := by
  have h : ∀ p, List.lookup "btc"
      (LedgerState.mk 10000 [("btc", ⟨1/50, 50000, 1000⟩)] []).portfolio = some p →
      p.amount < 3/100 := by
    intro p hp
    rw [show List.lookup "btc"
        (LedgerState.mk 10000 [("btc", ⟨1/50, 50000, 1000⟩)] []).portfolio =
        some ⟨1/50, 50000, 1000⟩ from rfl] at hp
    cases hp
    norm_num
  exact ⟨h, C1_sell_insufficient_holdings_no_mutation "btc" (3/100) 60000 1800 _ h⟩

/-- C2: starting from a non-negative cash balance, any sequence of
`execute_trade_atomic` calls (buys or sells, successful or failed), each
with a positive `amount_usd`, leaves the cash balance non-negative: a buy
fails before mutating when `amount_usd` exceeds cash, and a sell only adds
its positive `amount_usd` to cash. -/
theorem C2_cash_never_negative (l : List TradeReq) (s : LedgerState)
    (h0 : 0 ≤ s.cash) (h : ∀ r ∈ l, 0 < r.amount_usd) :
    0 ≤ (applyTrades l s).cash := by
  induction l generalizing s with
  | nil => exact h0
  | cons r rest ih =>
    have hr : 0 < r.amount_usd := h r (List.mem_cons_self r rest)
    have hrest : ∀ x ∈ rest, 0 < x.amount_usd := fun x hx => h x (List.mem_cons_of_mem r hx)
    exact ih _ (cash_step_nonneg r.coin r.side r.qty r.price r.amount_usd s h0 hr) hrest

/-- C2 witness: a concrete buy-then-oversized-sell sequence from a 10000
balance keeps cash non-negative. -/
theorem C2_cash_never_negative_witness :
    (0 : ℚ) ≤ (LedgerState.mk 10000 [] []).cash ∧
    (∀ r ∈ [TradeReq.mk "btc" "buy" (1/5) 50000 10000,
            TradeReq.mk "btc" "sell" 5 50000 250000], 0 < r.amount_usd) ∧
    0 ≤ (applyTrades [TradeReq.mk "btc" "buy" (1/5) 50000 10000,
            TradeReq.mk "btc" "sell" 5 50000 250000] (LedgerState.mk 10000 [] [])).cash := by
  refine ⟨by norm_num, by decide, ?_⟩
  exact C2_cash_never_negative _ _ (by norm_num) (by decide)

/-- C9: a buy whose `amount_usd` equals the cash balance exactly passes
the strict insufficient-funds check (`amount_usd > cash`), succeeds, and
leaves cash exactly 0. -/
theorem C9_buy_exact_balance_succeeds (coin : String) (qty price usd : ℚ)
    (s : LedgerState) (h : usd = s.cash) :
    (execute_trade_atomic coin "buy" qty price usd s).1.success = true ∧
    (execute_trade_atomic coin "buy" qty price usd s).2.cash = 0 := by
  unfold execute_trade_atomic
  rw [if_pos rfl, if_neg (by rw [h]; exact lt_irrefl s.cash)]
  cases List.lookup coin s.portfolio <;> exact ⟨rfl, by dsimp only; rw [h]; ring⟩

/-- C9 witness: buying for exactly the whole 10000 balance succeeds and
zeroes the cash. -/
theorem C9_buy_exact_balance_succeeds_witness :
    (10000 : ℚ) = (LedgerState.mk 10000 [] []).cash ∧
    (execute_trade_atomic "btc" "buy" (1/5) 50000 10000
        (LedgerState.mk 10000 [] [])).1.success = true ∧
    (execute_trade_atomic "btc" "buy" (1/5) 50000 10000
        (LedgerState.mk 10000 [] [])).2.cash = 0 :=
  ⟨rfl, C9_buy_exact_balance_succeeds "btc" (1/5) 50000 10000 _ rfl⟩

/-- C4: from cash `C ≥ X > 0` and no position in the coin, buying `X` USD
at price `P > 0` (quantity `X/P`) and then selling that entire quantity at
the same price restores cash to exactly `C` and leaves the position
closed (`amount = 0`, `total_cost = 0`). -/
theorem C4_buy_sell_round_trip (coin : String) (s : LedgerState) (C X P : ℚ)
    (hC : s.cash = C) (hX : 0 < X) (hXC : X ≤ C) (hP : 0 < P)
    (hnone : List.lookup coin s.portfolio = none) :
    (execute_trade_atomic coin "sell" (X/P) P X
       (execute_trade_atomic coin "buy" (X/P) P X s).2).2.cash = C ∧
    List.lookup coin (execute_trade_atomic coin "sell" (X/P) P X
       (execute_trade_atomic coin "buy" (X/P) P X s).2).2.portfolio = some ⟨0, 0, 0⟩ := by
  have hq : 0 < X / P := div_pos hX hP
  have h1 : (execute_trade_atomic coin "buy" (X/P) P X s).2 =
      ⟨C - X, setPos coin ⟨X/P, X/(X/P), X⟩ s.portfolio,
       s.trades ++ [⟨coin, "buy", X/P, P, X⟩]⟩ := by
    unfold execute_trade_atomic
    rw [if_pos rfl, if_neg (by rw [hC]; exact not_lt.mpr hXC), hnone]
    dsimp only
    rw [if_pos hq, hC]
  rw [h1]
  unfold execute_trade_atomic
  rw [if_neg (by decide : ¬ ("sell" = "buy"))]
  rw [show List.lookup coin
      (LedgerState.mk (C - X) (setPos coin ⟨X/P, X/(X/P), X⟩ s.portfolio)
        (s.trades ++ [⟨coin, "buy", X/P, P, X⟩])).portfolio = some ⟨X/P, X/(X/P), X⟩ from
    lookup_setPos_self coin _ s.portfolio]
  dsimp only
  rw [if_neg (lt_irrefl (X/P))]
  have hna : X/P - X/P < dust := by rw [sub_self]; unfold dust; norm_num
  rw [if_pos hna, if_pos hna, if_neg (lt_irrefl 0)]
  exact ⟨by dsimp only; ring, by dsimp only; exact lookup_setPos_self coin _ _⟩

/-- C4 witness: Scenario A/B at a single price: buy 1000 USD at 50000,
sell the resulting 0.02 at 50000; cash returns to 10000 and the position
is zeroed. -/
theorem C4_buy_sell_round_trip_witness :
    ((LedgerState.mk 10000 [] []).cash = 10000 ∧ (0:ℚ) < 1000 ∧ (1000:ℚ) ≤ 10000 ∧
      (0:ℚ) < 50000 ∧ List.lookup "btc" (LedgerState.mk 10000 [] []).portfolio = none) ∧
    (execute_trade_atomic "btc" "sell" (1000/50000) 50000 1000
       (execute_trade_atomic "btc" "buy" (1000/50000) 50000 1000
         (LedgerState.mk 10000 [] [])).2).2.cash = 10000 ∧
    List.lookup "btc" (execute_trade_atomic "btc" "sell" (1000/50000) 50000 1000
       (execute_trade_atomic "btc" "buy" (1000/50000) 50000 1000
         (LedgerState.mk 10000 [] [])).2).2.portfolio = some ⟨0, 0, 0⟩ :=
  ⟨⟨rfl, by norm_num, by norm_num, by norm_num, rfl⟩,
   C4_buy_sell_round_trip "btc" _ 10000 1000 50000 rfl (by norm_num) (by norm_num)
     (by norm_num) rfl⟩

/-- C3 counterexample: the buy path of `execute_trade_atomic` applies no
dust-threshold zeroing.  Buying a quantity of `1e-9` creates a position
whose amount `1e-9` is strictly below the `1e-8` dust threshold yet is
not zeroed, and whose `total_cost` is non-zero — contradicting the claim
that "a resulting amount below 1e-8 forces both amount and total_cost to
exactly 0". -/
theorem C3_dust_not_zeroed_on_buy_counterexample :
    List.lookup "btc" (execute_trade_atomic "btc" "buy" (1/1000000000) 1 (1/1000000000)
        (LedgerState.mk 10000 [] [])).2.portfolio =
      some ⟨1/1000000000, 1, 1/1000000000⟩ ∧
    (1/1000000000 : ℚ) < dust ∧ ¬ (1/1000000000 : ℚ) = 0 ∧
    ¬ (1/1000000000 : ℚ) = 0 := by
  refine ⟨?_, by unfold dust; norm_num, by norm_num, by norm_num⟩
  unfold execute_trade_atomic
  rw [if_pos rfl, if_neg (by norm_num), show List.lookup "btc"
      (LedgerState.mk 10000 [] []).portfolio = none from rfl]
  dsimp only
  rw [if_pos (by norm_num : (0:ℚ) < 1/1000000000)]
  rw [show ((1:ℚ)/1000000000) / (1/1000000000) = 1 by norm_num]
  exact lookup_setPos_self "btc" _ []

/-- C3 amended: from any state whose positions satisfy the bookkeeping
invariant, any `execute_trade_atomic` call with positive quantity and
positive `amount_usd` preserves the invariant (`amount = 0 ⇔
total_cost = 0`, and `avg_entry_price = total_cost/amount` when
`amount > 0`); moreover the dust-threshold zeroing is guaranteed on the
sell path: a successful sell whose resulting amount is below `1e-8`
leaves both amount and total_cost exactly 0.  (On the buy path no dust
zeroing is performed, see the counterexample.) -/
theorem C3_position_invariant_preserved (coin side : String) (qty price usd : ℚ)
    (s : LedgerState) (hinv : LedgerInv s) (hq : 0 < qty) (hu : 0 < usd) :
    LedgerInv (execute_trade_atomic coin side qty price usd s).2 ∧
    (side ≠ "buy" →
      (execute_trade_atomic coin side qty price usd s).1.success = true →
      ∀ p', List.lookup coin
          (execute_trade_atomic coin side qty price usd s).2.portfolio = some p' →
        p'.amount < dust → p'.amount = 0 ∧ p'.total_cost = 0) := by
  have hdust : (0:ℚ) < dust := by unfold dust; norm_num
  unfold execute_trade_atomic
  by_cases hside : side = "buy"
  · rw [if_pos hside]
    by_cases hc : usd > s.cash
    · rw [if_pos hc]
      exact ⟨hinv, fun hs => absurd hside hs⟩
    · rw [if_neg hc]
      refine ⟨?_, fun hs => absurd hside hs⟩
      cases hl : List.lookup coin s.portfolio with
      | none =>
        dsimp only
        rw [if_pos hq]
        intro c p hp
        by_cases hcoin : c = coin
        · subst hcoin
          rw [lookup_setPos_self] at hp
          cases hp
          exact ⟨le_of_lt hq, le_of_lt hu,
            ⟨fun h => absurd h (ne_of_gt hq), fun h => absurd h (ne_of_gt hu)⟩,
            fun _ => rfl⟩
        · rw [lookup_setPos_ne coin c _ hcoin] at hp
          exact hinv c p hp
      | some pos =>
        dsimp only
        obtain ⟨ha0, hc0, hiff, havg⟩ := hinv coin pos hl
        have hna : 0 < pos.amount + qty := by linarith
        have hnc : 0 < pos.total_cost + usd := by linarith
        rw [if_pos hna]
        intro c p hp
        by_cases hcoin : c = coin
        · subst hcoin
          rw [lookup_setPos_self] at hp
          cases hp
          exact ⟨le_of_lt hna, le_of_lt hnc,
            ⟨fun h => absurd h (ne_of_gt hna), fun h => absurd h (ne_of_gt hnc)⟩,
            fun _ => rfl⟩
        · rw [lookup_setPos_ne coin c _ hcoin] at hp
          exact hinv c p hp
  · rw [if_neg hside]
    cases hl : List.lookup coin s.portfolio with
    | none => exact ⟨hinv, fun _ hs => by simp at hs⟩
    | some pos =>
      dsimp only
      obtain ⟨ha0, hc0, hiff, havg⟩ := hinv coin pos hl
      by_cases hqa : pos.amount < qty
      · rw [if_pos hqa]
        exact ⟨hinv, fun _ hs => by simp at hs⟩
      · rw [if_neg hqa]
        push_neg at hqa
        have hapos : 0 < pos.amount := lt_of_lt_of_le hq hqa
        have hcpos : 0 < pos.total_cost := by
          rcases lt_or_eq_of_le hc0 with h | h
          · exact h
          · exact absurd (hiff.mpr h.symm) (ne_of_gt hapos)
        have havg' : pos.avg_entry_price = pos.total_cost / pos.amount := havg hapos
        by_cases hd : pos.amount - qty < dust
        · rw [if_pos hd, if_pos hd, if_neg (lt_irrefl 0)]
          constructor
          · intro c p hp
            by_cases hcoin : c = coin
            · subst hcoin
              rw [lookup_setPos_self] at hp
              cases hp
              exact ⟨le_refl 0, le_refl 0, ⟨fun _ => rfl, fun _ => rfl⟩,
                fun h => absurd h (lt_irrefl 0)⟩
            · rw [lookup_setPos_ne coin c _ hcoin] at hp
              exact hinv c p hp
          · intro _ _ p' hp' _
            rw [lookup_setPos_self] at hp'
            cases hp'
            exact ⟨rfl, rfl⟩
        · rw [if_neg hd, if_neg hd]
          push_neg at hd
          have hna : 0 < pos.amount - qty := lt_of_lt_of_le hdust hd
          have hnc : 0 < pos.total_cost - qty * pos.avg_entry_price := by
            rw [havg']
            have : pos.total_cost - qty * (pos.total_cost / pos.amount)
                = pos.total_cost * (pos.amount - qty) / pos.amount := by
              field_simp
              ring
            rw [this]
            positivity
          rw [if_pos hna]
          constructor
          · intro c p hp
            by_cases hcoin : c = coin
            · subst hcoin
              rw [lookup_setPos_self] at hp
              cases hp
              exact ⟨le_of_lt hna, le_of_lt hnc,
                ⟨fun h => absurd h (ne_of_gt hna), fun h => absurd h (ne_of_gt hnc)⟩,
                fun _ => rfl⟩
            · rw [lookup_setPos_ne coin c _ hcoin] at hp
              exact hinv c p hp
          · intro _ _ p' hp' hlt
            rw [lookup_setPos_self] at hp'
            cases hp'
            exact absurd hlt (not_lt.mpr hd)

/-- C3 amended witness: a successful sell of most of a 0.02 position at
one concrete state keeps the invariant, and the dust clause holds at the
sell result. -/
theorem C3_position_invariant_preserved_witness :
    LedgerInv (LedgerState.mk 10000 [("btc", ⟨1/50, 50000, 1000⟩)] []) ∧ (0:ℚ) < 1/50 ∧
    (0:ℚ) < 1000 ∧
    LedgerInv (execute_trade_atomic "btc" "sell" (1/50) 50000 1000
      (LedgerState.mk 10000 [("btc", ⟨1/50, 50000, 1000⟩)] [])).2 := by
  have hinv : LedgerInv (LedgerState.mk 10000 [("btc", ⟨1/50, 50000, 1000⟩)] []) := by
    intro c p hp
    by_cases hc : c = "btc"
    · subst hc
      rw [show List.lookup "btc"
          (LedgerState.mk 10000 [("btc", ⟨1/50, 50000, 1000⟩)] []).portfolio =
          some ⟨1/50, 50000, 1000⟩ from rfl] at hp
      cases hp
      refine ⟨by norm_num, by norm_num, by norm_num, fun _ => by norm_num⟩
    · have hb : (c == "btc") = false := beq_eq_false_iff_ne.mpr hc
      simp [List.lookup, hb] at hp
  exact ⟨hinv, by norm_num, by norm_num,
    (C3_position_invariant_preserved "btc" "sell" (1/50) 50000 1000 _ hinv
      (by norm_num) (by norm_num)).1⟩

/-! ## Win-rate heuristic (`portfolio.get_portfolio_summary`, lines 81-93, 103)

`get_trade_history` returns the trades table `ORDER BY id DESC` (newest
first); the win-rate loop runs over that retrieved list.  Timestamps are
SQL `datetime('now')` strings whose `<` ordering agrees with insertion
time; they are modelled as naturals. -/

structure HistTrade where
  id : ℕ
  coin : String
  side : String
  price : ℚ
  timestamp : ℕ
deriving DecidableEq

/-- The list comprehension `[t for t in trades if t.coin == sell.coin and
t.side == "buy" and t.timestamp < sell.timestamp]`. -/
def matching_buys (trades : List HistTrade) (s : HistTrade) : List HistTrade :=
  trades.filter fun t =>
    t.coin == s.coin && t.side == "buy" && decide (t.timestamp < s.timestamp)

/-- The code's win test for one sell: `matching_buys and
sell.price > matching_buys[-1].price`. -/
def sell_is_win (trades : List HistTrade) (s : HistTrade) : Bool :=
  match (matching_buys trades s).getLast? with
  | some b => decide (b.price < s.price)
  | none => false

/-- `sells = [t for t in trades if t.side == "sell"]`. -/
def sellsOf (trades : List HistTrade) : List HistTrade :=
  trades.filter fun t => t.side == "sell"

/-- The `win_count` accumulated over all retrieved sells. -/
def win_count (trades : List HistTrade) : ℕ :=
  ((sellsOf trades).filter (sell_is_win trades)).length

/-- The `win_rate` field of the portfolio summary:
`win_count/len(sells)*100` (0 with no sells), quantized to one decimal,
ties away from zero. -/
def win_rate_summary (trades : List HistTrade) : ℚ :=
  quantTenthHalfUp (if (sellsOf trades).length = 0 then 0
    else (win_count trades : ℚ) / (sellsOf trades).length * 100)

/-- The claim's (and spec §9's) reading of the heuristic: compare each
sell against the *most recent* buy of the same coin with a strictly
earlier timestamp.  Stated from the claim's words, for the refinement
comparison with `sell_is_win`. -/
def latestBuyBefore (trades : List HistTrade) (s : HistTrade) : Option HistTrade :=
  (matching_buys trades s).foldl
    (fun acc t =>
      match acc with
      | none => some t
      | some u => if u.timestamp < t.timestamp then some t else some u)
    none

/-- Win test as the claim states it: price exceeds the most recent prior
buy's price. -/
def claim_sell_is_win (trades : List HistTrade) (s : HistTrade) : Bool :=
  match latestBuyBefore trades s with
  | some b => decide (b.price < s.price)
  | none => false

/-! ### List helper lemmas for the win-rate characterization -/

theorem getLast?_min_id :
    ∀ (l : List HistTrade), l.Pairwise (fun a b => b.id < a.id) →
      ∀ b, l.getLast? = some b → b ∈ l ∧ ∀ x ∈ l, b.id ≤ x.id := by
  intro l
  induction l with
  | nil => intro _ b hb; simp at hb
  | cons a tl ih =>
    intro hp b hb
    cases tl with
    | nil =>
      simp only [List.getLast?_singleton, Option.some.injEq] at hb
      subst hb
      exact ⟨List.mem_singleton_self a, fun x hx => by
        rw [List.mem_singleton] at hx; subst hx; exact le_refl _⟩
    | cons c tl' =>
      rw [List.getLast?_cons_cons] at hb
      obtain ⟨hmem, hmin⟩ := ih (List.Pairwise.of_cons hp) b hb
      refine ⟨List.mem_cons_of_mem a hmem, fun x hx => ?_⟩
      rcases List.mem_cons.mp hx with h | h
      · subst h
        exact le_of_lt ((List.pairwise_cons.mp hp).1 b hmem)
      · exact hmin x h

theorem mem_id_inj :
    ∀ (l : List HistTrade), l.Pairwise (fun a b => b.id < a.id) →
      ∀ b₁ b₂, b₁ ∈ l → b₂ ∈ l → b₁.id = b₂.id → b₁ = b₂ := by
  intro l
  induction l with
  | nil => intro _ b₁ b₂ h; simp at h
  | cons a tl ih =>
    intro hp b₁ b₂ h1 h2 hid
    obtain ⟨ha, htl⟩ := List.pairwise_cons.mp hp
    rcases List.mem_cons.mp h1 with h1 | h1
    · rcases List.mem_cons.mp h2 with h2 | h2
      · rw [h1, h2]
      · rw [h1] at hid ⊢
        exact absurd hid (ne_of_gt (ha b₂ h2))
    · rcases List.mem_cons.mp h2 with h2 | h2
      · rw [h2] at hid ⊢
        exact absurd hid.symm (ne_of_gt (ha b₁ h1))
      · exact ih htl b₁ b₂ h1 h2 hid

/-- Rounding to one decimal with half-up ties moves a non-negative value
by at most 1/20. -/
theorem quantTenthHalfUp_close (x : ℚ) (hx : 0 ≤ x) :
    |quantTenthHalfUp x - x| ≤ 1/20 := by
  unfold quantTenthHalfUp
  rw [if_pos hx]
  have h1 : (⌊10 * x + 1/2⌋ : ℚ) ≤ 10 * x + 1/2 := Int.floor_le _
  have h2 : 10 * x + 1/2 < (⌊10 * x + 1/2⌋ : ℚ) + 1 := Int.lt_floor_add_one _
  rw [abs_le]
  constructor <;> linarith

/-! ## Claim theorems on the win rate -/

/-- C5 counterexample: with retrieved history (newest first)
`[sell(id 3, t3, price 15), buy(id 2, t2, price 20), buy(id 1, t1, price 10)]`
the code takes `matching_buys[-1]`, the *earliest* matching buy (price
10), and counts the sell as a win, while the claim's most-recent-prior-buy
rule (price 20) says it is not a win.  Moreover with one win among three
sells the reported `win_rate` is the quantized 33.3, not `100*1/3`. -/
theorem C5_win_rate_counterexample :
    sell_is_win
        [⟨3, "c", "sell", 15, 3⟩, ⟨2, "c", "buy", 20, 2⟩, ⟨1, "c", "buy", 10, 1⟩]
        ⟨3, "c", "sell", 15, 3⟩ = true ∧
    claim_sell_is_win
        [⟨3, "c", "sell", 15, 3⟩, ⟨2, "c", "buy", 20, 2⟩, ⟨1, "c", "buy", 10, 1⟩]
        ⟨3, "c", "sell", 15, 3⟩ = false ∧
    win_rate_summary
        [⟨4, "c", "sell", 5, 4⟩, ⟨3, "c", "sell", 5, 3⟩, ⟨2, "c", "sell", 15, 2⟩,
         ⟨1, "c", "buy", 10, 1⟩] = 333/10 ∧
    ¬ ((333 : ℚ)/10 = 100 * 1 / 3) := by
  refine ⟨by decide, by decide, ?_, by norm_num⟩
  unfold win_rate_summary
  rw [if_neg (by decide)]
  rw [show ((win_count [⟨4, "c", "sell", 5, 4⟩, ⟨3, "c", "sell", 5, 3⟩,
      ⟨2, "c", "sell", 15, 2⟩, ⟨1, "c", "buy", 10, 1⟩] : ℚ) /
      (sellsOf [⟨4, "c", "sell", 5, 4⟩, ⟨3, "c", "sell", 5, 3⟩,
      ⟨2, "c", "sell", 15, 2⟩, ⟨1, "c", "buy", 10, 1⟩]).length * 100) =
      ((1 : ℚ) / 3 * 100) by
    rw [show win_count [⟨4, "c", "sell", 5, 4⟩, ⟨3, "c", "sell", 5, 3⟩,
      ⟨2, "c", "sell", 15, 2⟩, ⟨1, "c", "buy", 10, 1⟩] = 1 from by decide]
    rw [show (sellsOf [⟨4, "c", "sell", 5, 4⟩, ⟨3, "c", "sell", 5, 3⟩,
      ⟨2, "c", "sell", 15, 2⟩, ⟨1, "c", "buy", 10, 1⟩]).length = 3 from by decide]
    norm_num]
  unfold quantTenthHalfUp
  rw [if_pos (by norm_num)]
  rw [show ((10:ℚ) * (1/3 * 100) + 1/2) = 2003/6 by norm_num]
  rw [show ⌊(2003/6 : ℚ)⌋ = 333 by norm_num]
  norm_num

/-- C5 amended: over a retrieved history sorted newest-first (strictly
descending ids, as `get_trade_history` returns), a sell is counted as a
win exactly when a buy of the same coin with a strictly earlier timestamp
exists in the history and the sell's price exceeds the price of the
*earliest* such buy (the minimal id); and the reported `win_rate` is
`100*wins/#sells` quantized to one decimal half-up — 0 when there are no
sells, and within 1/20 of the exact ratio otherwise. -/
theorem C5_win_rate_characterization (trades : List HistTrade)
    (hsorted : trades.Pairwise (fun a b => b.id < a.id)) :
    (∀ s, sell_is_win trades s = true ↔
      ∃ b, b ∈ matching_buys trades s ∧
        (∀ b' ∈ matching_buys trades s, b.id ≤ b'.id) ∧ b.price < s.price) ∧
    ((sellsOf trades).length = 0 → win_rate_summary trades = 0) ∧
    ((sellsOf trades).length ≠ 0 →
      |win_rate_summary trades -
        (win_count trades : ℚ) / (sellsOf trades).length * 100| ≤ 1/20) := by
  have hmb : ∀ s, (matching_buys trades s).Pairwise (fun a b => b.id < a.id) :=
    fun s => List.Pairwise.sublist (List.filter_sublist _) hsorted
  refine ⟨fun s => ?_, fun h0 => ?_, fun hne => ?_⟩
  · constructor
    · intro hwin
      unfold sell_is_win at hwin
      cases hb : (matching_buys trades s).getLast? with
      | none => rw [hb] at hwin; simp at hwin
      | some b =>
        rw [hb] at hwin
        simp only [decide_eq_true_eq] at hwin
        obtain ⟨hmem, hmin⟩ := getLast?_min_id _ (hmb s) b hb
        exact ⟨b, hmem, hmin, hwin⟩
    · rintro ⟨b, hmem, hmin, hprice⟩
      unfold sell_is_win
      cases hb : (matching_buys trades s).getLast? with
      | none =>
        rw [List.getLast?_eq_none_iff] at hb
        rw [hb] at hmem
        simp at hmem
      | some b' =>
        obtain ⟨hmem', hmin'⟩ := getLast?_min_id _ (hmb s) b' hb
        have : b = b' := mem_id_inj _ (hmb s) b b' hmem hmem'
          (le_antisymm (hmin b' hmem') (hmin' b hmem))
        subst this
        simp only [decide_eq_true_eq]
        exact hprice
  · unfold win_rate_summary
    rw [if_pos h0]
    unfold quantTenthHalfUp
    norm_num
  · unfold win_rate_summary
    rw [if_neg hne]
    apply quantTenthHalfUp_close
    positivity

/-- C5 amended witness: the characterization applied to a concrete
two-trade history. -/
theorem C5_win_rate_characterization_witness :
    ([⟨2, "c", "sell", 15, 2⟩, ⟨1, "c", "buy", 10, 1⟩] :
        List HistTrade).Pairwise (fun a b => b.id < a.id) ∧
    (sell_is_win [⟨2, "c", "sell", 15, 2⟩, ⟨1, "c", "buy", 10, 1⟩]
        ⟨2, "c", "sell", 15, 2⟩ = true ↔
      ∃ b, b ∈ matching_buys [⟨2, "c", "sell", 15, 2⟩, ⟨1, "c", "buy", 10, 1⟩]
          ⟨2, "c", "sell", 15, 2⟩ ∧
        (∀ b' ∈ matching_buys [⟨2, "c", "sell", 15, 2⟩, ⟨1, "c", "buy", 10, 1⟩]
            ⟨2, "c", "sell", 15, 2⟩, b.id ≤ b'.id) ∧ b.price < 15) :=
  ⟨by decide,
   (C5_win_rate_characterization _ (by decide)).1 ⟨2, "c", "sell", 15, 2⟩⟩

/-! ## Indicator library (`strategies.py`)

Indicator outputs are `List (Option ℚ)`; `none` models the `np.nan`
sentinel.  `_sma`'s cumulative-sum formulation is modelled by the
trailing-window mean it computes: `result[i] = (cumsum[i] -
cumsum[i-period]) / period = sum(data[i+1-period : i+1]) / period`. -/

/-- Arithmetic mean of a list (`np.mean`); 0 on the empty list. -/
def listMean (l : List ℚ) : ℚ := l.sum / l.length

/-- Consecutive differences (`np.diff`): `deltas[i] = data[i+1] - data[i]`. -/
def diffs (data : List ℚ) : List ℚ := List.zipWith (fun a b => b - a) data data.tail

/-- `strategies._sma` (lines 29-35). -/
def _sma (data : List ℚ) (period : ℕ) : List (Option ℚ) :=
  if data.length < period then List.replicate data.length none
  else (List.range data.length).map fun i =>
    if i + 1 < period then none
    else some (((data.drop (i + 1 - period)).take period).sum / (period : ℚ))

/-- One EMA update: `(x - prev) * (2/(period+1)) + prev`. -/
def emaStep (period : ℕ) (prev x : ℚ) : ℚ := (x - prev) * (2 / ((period : ℚ) + 1)) + prev

/-- The EMA recurrence of `strategies._ema`'s loop (lines 44-45). -/
def emaScan (period : ℕ) : ℚ → List ℚ → List ℚ
  | _, [] => []
  | prev, x :: xs => emaStep period prev x :: emaScan period (emaStep period prev x) xs

/-- `strategies._ema` (lines 38-46): seeded at index `period-1` with the
plain mean of the first `period` values. -/
def _ema (data : List ℚ) (period : ℕ) : List (Option ℚ) :=
  if data.length < period then List.replicate data.length none
  else List.replicate (period - 1) none ++
    some (listMean (data.take period)) ::
      (emaScan period (listMean (data.take period)) (data.drop period)).map some

/-- The RSI formula from the averaged gain/loss pair: 100 when the
average loss is 0, else `100 - 100/(1 + avgGain/avgLoss)`. -/
def rsiVal (ag al : ℚ) : ℚ := if al = 0 then 100 else 100 - 100 / (1 + ag / al)

/-- Wilder smoothing `a' = (a*(period-1) + x)/period`, scanned over a
list, emitting each smoothed value. -/
def wilderSeq (period : ℕ) : ℚ → List ℚ → List ℚ
  | _, [] => []
  | a, x :: xs =>
      (a * ((period : ℚ) - 1) + x) / period ::
        wilderSeq period ((a * ((period : ℚ) - 1) + x) / period) xs

/-- `gains = np.where(deltas > 0, deltas, 0)`. -/
def gainsOf (data : List ℚ) : List ℚ := (diffs data).map fun d => if 0 < d then d else 0

/-- `losses = np.where(deltas < 0, -deltas, 0)`. -/
def lossesOf (data : List ℚ) : List ℚ := (diffs data).map fun d => if d < 0 then -d else 0

/-- The successive smoothed average gains of `strategies._rsi`: the seed
`np.mean(gains[:period])` followed by the Wilder updates over the
remaining gains.  (The source updates both averages in one loop; the two
scans are independent, so they are modelled separately.) -/
def avgGains (data : List ℚ) (period : ℕ) : List ℚ :=
  listMean ((gainsOf data).take period) ::
    wilderSeq period (listMean ((gainsOf data).take period)) ((gainsOf data).drop period)

/-- The successive smoothed average losses of `strategies._rsi`. -/
def avgLosses (data : List ℚ) (period : ℕ) : List ℚ :=
  listMean ((lossesOf data).take period) ::
    wilderSeq period (listMean ((lossesOf data).take period)) ((lossesOf data).drop period)

/-- `strategies._rsi` (lines 49-76): `nan` for the first `period`
indices, then one RSI value per smoothed average pair, starting at index
`period`. -/
def _rsi (data : List ℚ) (period : ℕ) : List (Option ℚ) :=
  if data.length < period + 1 then List.replicate data.length none
  else List.replicate period none ++
    List.zipWith (fun g l => some (rsiVal g l)) (avgGains data period) (avgLosses data period)

/-- Population variance, the square of `np.std`. -/
def popVar (l : List ℚ) : ℚ := (l.map fun x => (x - listMean l)^2).sum / l.length

/-- `np.std` (population standard deviation); the square root forces the
value into `ℝ`. -/
noncomputable def npStd (l : List ℚ) : ℝ := Real.sqrt (popVar l)

/-- The `rolling_std` array of `strategies.bollinger_bands_signal`
(lines 237-239): defined from index `period-1`, `nan` before. -/
noncomputable def _rolling_std (data : List ℚ) (period : ℕ) : List (Option ℝ) :=
  (List.range data.length).map fun i =>
    if period ≤ i + 1 then some (npStd ((data.drop (i + 1 - period)).take period)) else none

/-- `upper = middle + std_dev * rolling_std`, with NaN propagation. -/
noncomputable def bollinger_upper (data : List ℚ) (period : ℕ) (std_dev : ℚ) : List (Option ℝ) :=
  List.zipWith (fun m s =>
    match m, s with
    | some m, some s => some ((m : ℝ) + (std_dev : ℝ) * s)
    | _, _ => none) (_sma data period) (_rolling_std data period)

/-- `lower = middle - std_dev * rolling_std`, with NaN propagation. -/
noncomputable def bollinger_lower (data : List ℚ) (period : ℕ) (std_dev : ℚ) : List (Option ℝ) :=
  List.zipWith (fun m s =>
    match m, s with
    | some m, some s => some ((m : ℝ) - (std_dev : ℝ) * s)
    | _, _ => none) (_sma data period) (_rolling_std data period)

/-! ### Indicator helper lemmas -/

theorem zipWith_getElem?_some {α β γ : Type} (f : α → β → γ) :
    ∀ (l1 : List α) (l2 : List β) (i : ℕ) (a : α) (b : β),
      l1[i]? = some a → l2[i]? = some b →
      (List.zipWith f l1 l2)[i]? = some (f a b) := by
  intro l1
  induction l1 with
  | nil => intro l2 i a b h1; simp at h1
  | cons x xs ih =>
    intro l2 i a b h1 h2
    cases l2 with
    | nil => simp at h2
    | cons y ys =>
      cases i with
      | zero =>
        simp only [List.getElem?_cons_zero, Option.some.injEq] at h1 h2
        simp [List.zipWith, h1, h2]
      | succ n =>
        simp only [List.getElem?_cons_succ] at h1 h2
        simpa [List.zipWith] using ih ys n a b h1 h2

theorem mem_zipWith {α β γ : Type} {f : α → β → γ} :
    ∀ {l1 : List α} {l2 : List β} {y : γ}, y ∈ List.zipWith f l1 l2 →
      ∃ a b, a ∈ l1 ∧ b ∈ l2 ∧ y = f a b := by
  intro l1
  induction l1 with
  | nil => intro l2 y h; simp at h
  | cons x xs ih =>
    intro l2 y h
    cases l2 with
    | nil => simp at h
    | cons z zs =>
      simp only [List.zipWith, List.mem_cons] at h
      rcases h with h | h
      · exact ⟨x, z, List.mem_cons_self x xs, List.mem_cons_self z zs, h⟩
      · obtain ⟨a, b, ha, hb, hy⟩ := ih h
        exact ⟨a, b, List.mem_cons_of_mem x ha, List.mem_cons_of_mem z hb, hy⟩

theorem wilderSeq_length (period : ℕ) :
    ∀ (xs : List ℚ) (a : ℚ), (wilderSeq period a xs).length = xs.length := by
  intro xs
  induction xs with
  | nil => intro a; rfl
  | cons x xs ih => intro a; simp [wilderSeq, ih]

theorem wilderSeq_nonneg (period : ℕ) :
    ∀ (xs : List ℚ) (a0 : ℚ), 0 ≤ a0 → (∀ x ∈ xs, 0 ≤ x) →
      ∀ a ∈ wilderSeq period a0 xs, 0 ≤ a := by
  intro xs
  induction xs with
  | nil => intro a0 _ _ a ha; simp [wilderSeq] at ha
  | cons x xs ih =>
    intro a0 h0 hxs a ha
    have hx : 0 ≤ x := hxs x (List.mem_cons_self x xs)
    have hstep : 0 ≤ (a0 * ((period : ℚ) - 1) + x) / period := by
      rcases Nat.eq_zero_or_pos period with hp | hp
      · rw [hp]; simp
      · have h1 : (1 : ℚ) ≤ (period : ℚ) := by exact_mod_cast hp
        apply div_nonneg _ (by positivity)
        nlinarith
    simp only [wilderSeq, List.mem_cons] at ha
    rcases ha with ha | ha
    · rw [ha]; exact hstep
    · exact ih _ hstep (fun y hy => hxs y (List.mem_cons_of_mem x hy)) a ha

theorem gainsOf_nonneg (data : List ℚ) : ∀ x ∈ gainsOf data, 0 ≤ x := by
  intro x hx
  obtain ⟨d, _, hd⟩ := List.mem_map.mp hx
  rw [← hd]
  by_cases h : 0 < d
  · rw [if_pos h]; exact le_of_lt h
  · rw [if_neg h]

theorem lossesOf_nonneg (data : List ℚ) : ∀ x ∈ lossesOf data, 0 ≤ x := by
  intro x hx
  obtain ⟨d, _, hd⟩ := List.mem_map.mp hx
  rw [← hd]
  by_cases h : d < 0
  · rw [if_pos h]; linarith
  · rw [if_neg h]

theorem listMean_nonneg {l : List ℚ} (h : ∀ x ∈ l, 0 ≤ x) : 0 ≤ listMean l := by
  unfold listMean
  exact div_nonneg (List.sum_nonneg h) (by positivity)

theorem avgGains_nonneg (data : List ℚ) (period : ℕ) :
    ∀ a ∈ avgGains data period, 0 ≤ a := by
  intro a ha
  have hseed : 0 ≤ listMean ((gainsOf data).take period) :=
    listMean_nonneg fun x hx => gainsOf_nonneg data x (List.mem_of_mem_take hx)
  unfold avgGains at ha
  rcases List.mem_cons.mp ha with h | h
  · rw [h]; exact hseed
  · exact wilderSeq_nonneg period _ _ hseed
      (fun x hx => gainsOf_nonneg data x (List.mem_of_mem_drop hx)) a h

theorem avgLosses_nonneg (data : List ℚ) (period : ℕ) :
    ∀ a ∈ avgLosses data period, 0 ≤ a := by
  intro a ha
  have hseed : 0 ≤ listMean ((lossesOf data).take period) :=
    listMean_nonneg fun x hx => lossesOf_nonneg data x (List.mem_of_mem_take hx)
  unfold avgLosses at ha
  rcases List.mem_cons.mp ha with h | h
  · rw [h]; exact hseed
  · exact wilderSeq_nonneg period _ _ hseed
      (fun x hx => lossesOf_nonneg data x (List.mem_of_mem_drop hx)) a h

theorem rsiVal_bounds (g l : ℚ) (hg : 0 ≤ g) (hl : 0 ≤ l) :
    0 ≤ rsiVal g l ∧ rsiVal g l ≤ 100 := by
  unfold rsiVal
  by_cases h : l = 0
  · rw [if_pos h]; norm_num
  · rw [if_neg h]
    have hlpos : 0 < l := lt_of_le_of_ne hl (Ne.symm h)
    have hrs : 0 ≤ g / l := div_nonneg hg hl
    have hpos : (0 : ℚ) < 100 / (1 + g / l) := by positivity
    have hle : 100 / (1 + g / l) ≤ 100 := div_le_self (by norm_num) (by linarith)
    constructor <;> linarith

/-- C7: every defined RSI value lies in `[0, 100]`; the RSI value is
exactly 100 whenever the smoothed average loss is 0; and SMA, EMA, RSI
and Bollinger-band outputs carry the NaN sentinel at every index before
their minimum window (SMA/EMA/Bollinger before index `period-1`, RSI
before index `period`). -/
theorem C7_indicator_bounds_and_sentinels (data : List ℚ) (period : ℕ) (std_dev : ℚ) :
    (∀ x : ℚ, some x ∈ _rsi data period → 0 ≤ x ∧ x ≤ 100) ∧
    (period + 1 ≤ data.length →
      ∀ j al, (avgLosses data period)[j]? = some al → al = 0 →
        (_rsi data period)[period + j]? = some (some 100)) ∧
    (∀ i, i < data.length → i + 1 < period → (_sma data period)[i]? = some none) ∧
    (∀ i, i < data.length → i + 1 < period → (_ema data period)[i]? = some none) ∧
    (∀ i, i < data.length → i < period → (_rsi data period)[i]? = some none) ∧
    (∀ i, i < data.length → i + 1 < period →
      (bollinger_upper data period std_dev)[i]? = some none ∧
      (bollinger_lower data period std_dev)[i]? = some none) := by
  have hsma : ∀ i, i < data.length → i + 1 < period → (_sma data period)[i]? = some none := by
    intro i hi hip
    unfold _sma
    by_cases hlen : data.length < period
    · rw [if_pos hlen]
      exact List.getElem?_replicate_of_lt hi
    · rw [if_neg hlen, List.getElem?_map, List.getElem?_range hi]
      exact congrArg some (if_pos hip)
  refine ⟨?_, ?_, hsma, ?_, ?_, ?_⟩
  · intro x hx
    unfold _rsi at hx
    by_cases hlen : data.length < period + 1
    · rw [if_pos hlen] at hx
      have := List.eq_of_mem_replicate hx
      simp at this
    · rw [if_neg hlen] at hx
      rcases List.mem_append.mp hx with h | h
      · have := List.eq_of_mem_replicate h
        simp at this
      · obtain ⟨g, l, hg, hl, hy⟩ := mem_zipWith h
        simp only [Option.some.injEq] at hy
        rw [hy]
        exact rsiVal_bounds g l (avgGains_nonneg data period g hg)
          (avgLosses_nonneg data period l hl)
  · intro hlen j al hal h0
    have hj : j < (avgLosses data period).length := (List.getElem?_eq_some_iff.mp hal).1
    have hjg : j < (avgGains data period).length := by
      unfold avgGains
      unfold avgLosses at hj
      simpa [wilderSeq_length, gainsOf, lossesOf] using hj
    have hg : (avgGains data period)[j]? = some ((avgGains data period).get ⟨j, hjg⟩) :=
      List.getElem?_eq_some_iff.mpr ⟨hjg, rfl⟩
    unfold _rsi
    rw [if_neg (by omega)]
    rw [List.getElem?_append_right
      (by simp only [List.length_replicate]; omega :
        (List.replicate period (none : Option ℚ)).length ≤ period + j)]
    simp only [List.length_replicate]
    rw [show period + j - period = j by omega]
    rw [zipWith_getElem?_some _ _ _ j _ al hg hal, h0]
    rw [show rsiVal ((avgGains data period).get ⟨j, hjg⟩) 0 = 100 from if_pos rfl]
  · intro i hi hip
    unfold _ema
    by_cases hlen : data.length < period
    · rw [if_pos hlen]
      exact List.getElem?_replicate_of_lt hi
    · rw [if_neg hlen]
      rw [List.getElem?_append_left (by simp only [List.length_replicate]; omega)]
      exact List.getElem?_replicate_of_lt (by omega)
  · intro i hi hip
    unfold _rsi
    by_cases hlen : data.length < period + 1
    · rw [if_pos hlen]
      exact List.getElem?_replicate_of_lt hi
    · rw [if_neg hlen]
      rw [List.getElem?_append_left (by simp only [List.length_replicate]; omega)]
      exact List.getElem?_replicate_of_lt (by omega)
  · intro i hi hip
    have hstd : (_rolling_std data period)[i]? = some none := by
      unfold _rolling_std
      rw [List.getElem?_map, List.getElem?_range hi]
      exact congrArg some (if_neg (by omega))
    constructor
    · unfold bollinger_upper
      rw [zipWith_getElem?_some _ _ _ i none none (hsma i hi hip) hstd]
    · unfold bollinger_lower
      rw [zipWith_getElem?_some _ _ _ i none none (hsma i hi hip) hstd]

/-- C7 witness: on the increasing series `[1,2,3,4,5]` with period 2 the
defined RSI value 100 is in range, the zero average-loss at index 0 gives
RSI exactly 100 at index 2, and all four indicators are the sentinel
before their windows. -/
theorem C7_indicator_bounds_and_sentinels_witness :
    (some 100 ∈ _rsi [1, 2, 3, 4, 5] 2 ∧ (0:ℚ) ≤ 100 ∧ (100:ℚ) ≤ 100) ∧
    (2 + 1 ≤ ([1, 2, 3, 4, 5] : List ℚ).length ∧
      (avgLosses [1, 2, 3, 4, 5] 2)[0]? = some 0 ∧
      (_rsi [1, 2, 3, 4, 5] 2)[2 + 0]? = some (some 100)) ∧
    (_sma [1, 2, 3, 4, 5] 2)[0]? = some none ∧
    (_ema [1, 2, 3, 4, 5] 2)[0]? = some none ∧
    (_rsi [1, 2, 3, 4, 5] 2)[1]? = some none ∧
    ((bollinger_upper [1, 2, 3, 4, 5] 2 2)[0]? = some none ∧
     (bollinger_lower [1, 2, 3, 4, 5] 2 2)[0]? = some none) := by
  have hmem : some (100:ℚ) ∈ _rsi [1, 2, 3, 4, 5] 2 := by
    norm_num [_rsi, avgGains, avgLosses, gainsOf, lossesOf, diffs, listMean, wilderSeq,
      rsiVal, List.zipWith, List.replicate]
  have hal : (avgLosses [1, 2, 3, 4, 5] 2)[0]? = some 0 := by
    norm_num [avgLosses, lossesOf, diffs, listMean, List.zipWith]
  have h := C7_indicator_bounds_and_sentinels [1, 2, 3, 4, 5] 2 2
  exact ⟨⟨hmem, (h.1 100 hmem).1, (h.1 100 hmem).2⟩,
    ⟨by decide, hal, h.2.1 (by decide) 0 0 hal rfl⟩,
    h.2.2.1 0 (by decide) (by decide),
    h.2.2.2.1 0 (by decide) (by decide),
    h.2.2.2.2.1 1 (by decide) (by decide),
    h.2.2.2.2.2 0 (by decide) (by decide)⟩

/-! ## Signal engine (`strategies.py`)

A signal is its direction string plus the confidence; the `reason` text
and echoed indicator fields of the source are diagnostic only (nothing
downstream reads them) and are not modelled.  Float comparisons against
NaN are false in IEEE arithmetic; `nanLe`/`nanGe` model that for the
sentinel-carrying values. -/

structure Signal where
  signal : String
  confidence : ℚ
deriving DecidableEq

/-- `a <= b` on possibly-NaN floats: false if either side is NaN. -/
def nanLe (a b : Option ℚ) : Bool :=
  match a, b with
  | some a, some b => decide (a ≤ b)
  | _, _ => false

/-- `a >= b` on possibly-NaN floats: false if either side is NaN. -/
def nanGe (a b : Option ℚ) : Bool :=
  match a, b with
  | some a, some b => decide (b ≤ a)
  | _, _ => false

/-- `strategies.ma_crossover_signal` (lines 79-125).  Decimal literals
0.95/0.6/0.1/0.8/0.05 are the exact rationals 19/20, 3/5, 1/10, 4/5,
1/20. -/
def ma_crossover_signal (prices : List (ℚ × ℚ)) (short_period long_period : ℕ) : Signal :=
  if prices.length < long_period + 2 then ⟨"hold", 0⟩
  else
    let data := prices.map Prod.snd
    let n := data.length
    let short_ma := _sma data short_period
    let long_ma := _sma data long_period
    match short_ma.getD (n - 1) none, long_ma.getD (n - 1) none with
    | some cs, some cl =>
        let spread := (cs - cl) / cl * 100
        if nanLe (short_ma.getD (n - 2) none) (long_ma.getD (n - 2) none)
            && decide (cl < cs) then
          ⟨"buy", round2 (min (19/20) (3/5 + |spread| * (1/10)))⟩
        else if nanGe (short_ma.getD (n - 2) none) (long_ma.getD (n - 2) none)
            && decide (cs < cl) then
          ⟨"sell", round2 (min (19/20) (3/5 + |spread| * (1/10)))⟩
        else ⟨"hold", round2 (min (4/5) (|spread| * (1/20)))⟩
    | _, _ => ⟨"hold", 0⟩

/-- `strategies.rsi_signal` (lines 128-165). -/
def rsi_signal (prices : List (ℚ × ℚ)) (period : ℕ) (oversold overbought : ℚ) : Signal :=
  if prices.length < period + 2 then ⟨"hold", 0⟩
  else
    let data := prices.map Prod.snd
    match (_rsi data period).getD (data.length - 1) none with
    | none => ⟨"hold", 0⟩
    | some r =>
      if r ≤ oversold then
        ⟨"buy", round2 (min (19/20) (11/20 + (oversold - r) * (1/50)))⟩
      else if overbought ≤ r then
        ⟨"sell", round2 (min (19/20) (11/20 + (r - overbought) * (1/50)))⟩
      else ⟨"hold", 3/10⟩

/-- `strategies.macd_signal` (lines 168-224). -/
def macd_signal (prices : List (ℚ × ℚ)) (fast slow signal_period : ℕ) : Signal :=
  if prices.length < slow + signal_period + 2 then ⟨"hold", 0⟩
  else
    let data := prices.map Prod.snd
    let macd_line := List.zipWith (fun a b =>
      match a, b with
      | some a, some b => some (a - b)
      | _, _ => (none : Option ℚ)) (_ema data fast) (_ema data slow)
    let valid_macd := macd_line.filterMap id
    if valid_macd.length < signal_period + 2 then ⟨"hold", 0⟩
    else
      let m := valid_macd.length
      let signal_line := _ema valid_macd signal_period
      match signal_line.getD (m - 1) none, signal_line.getD (m - 2) none with
      | some cursig, some prevsig =>
          let current_macd := valid_macd.getD (m - 1) 0
          let prev_macd := valid_macd.getD (m - 2) 0
          let histogram := current_macd - cursig
          if prev_macd ≤ prevsig ∧ cursig < current_macd then
            ⟨"buy", round2 (min (9/10)
              (11/20 + |histogram| / (data.getD (data.length - 1) 0) * 100))⟩
          else if prevsig ≤ prev_macd ∧ current_macd < cursig then
            ⟨"sell", round2 (min (9/10)
              (11/20 + |histogram| / (data.getD (data.length - 1) 0) * 100))⟩
          else ⟨"hold", 3/10⟩
      | _, _ => ⟨"hold", 0⟩

/-- Python `round(x, 2)` on a real value (ties to even); needed because
the Bollinger confidence involves a square root. -/
noncomputable def roundHalfEvenR (x : ℝ) : ℤ :=
  if x - ⌊x⌋ < 1/2 then ⌊x⌋
  else if 1/2 < x - ⌊x⌋ then ⌊x⌋ + 1
  else if Even ⌊x⌋ then ⌊x⌋ else ⌊x⌋ + 1

/-- Two-decimal rounding of a real, as a rational. -/
noncomputable def round2R (x : ℝ) : ℚ := (roundHalfEvenR (100 * x) : ℚ) / 100

/-- `strategies.bollinger_bands_signal` (lines 227-284).  `upper[-1]` and
`lower[-1]` are `middle[-1] ± std_dev * rolling_std[-1]`;
`rolling_std[-1]` is defined whenever `middle[-1]` is (both need
`n ≥ period`), so the joint match mirrors the source's
`isnan(middle[-1])` early return. -/
noncomputable def bollinger_bands_signal (prices : List (ℚ × ℚ)) (period : ℕ)
    (std_dev : ℚ) : Signal :=
  if prices.length < period + 2 then ⟨"hold", 0⟩
  else
    let data := prices.map Prod.snd
    let n := data.length
    match (_sma data period).getD (n - 1) none, (_rolling_std data period).getD (n - 1) none with
    | some m, some sd =>
        let upper : ℝ := (m : ℝ) + (std_dev : ℝ) * sd
        let lower : ℝ := (m : ℝ) - (std_dev : ℝ) * sd
        let price : ℚ := data.getD (n - 1) 0
        let band_width : ℝ := upper - lower
        if (price : ℝ) ≤ lower then
          let pct_below : ℝ :=
            if 0 < band_width then (lower - (price : ℝ)) / band_width * 100 else 0
          ⟨"buy", round2R (min (9/10) (1/2 + pct_below * (1/20)))⟩
        else if upper ≤ (price : ℝ) then
          let pct_above : ℝ :=
            if 0 < band_width then ((price : ℝ) - upper) / band_width * 100 else 0
          ⟨"sell", round2R (min (9/10) (1/2 + pct_above * (1/20)))⟩
        else ⟨"hold", 3/10⟩
    | _, _ => ⟨"hold", 0⟩

/-- Caller-supplied parameter overrides for `get_signal`/`backtest`
(`params or {}` merged over each strategy's declared defaults with
`dict.update`): a `none` field means "not overridden", and each evaluator
reads its own default where the override is absent. -/
structure Params where
  short_period : Option ℕ := none
  long_period : Option ℕ := none
  period : Option ℕ := none
  oversold : Option ℚ := none
  overbought : Option ℚ := none
  fast : Option ℕ := none
  slow : Option ℕ := none
  signal_period : Option ℕ := none
  std_dev : Option ℚ := none

/-- `strategies.get_signal` (lines 287-305): dispatch on the strategy
identifier, merging overrides onto the `STRATEGIES` defaults; unknown
identifiers soft-fail to hold/0. -/
noncomputable def get_signal (strategy_id : String) (prices : List (ℚ × ℚ))
    (params : Params) : Signal :=
  if strategy_id = "ma_crossover" then
    ma_crossover_signal prices (params.short_period.getD 20) (params.long_period.getD 50)
  else if strategy_id = "rsi" then
    rsi_signal prices (params.period.getD 14)
      (params.oversold.getD 30) (params.overbought.getD 70)
  else if strategy_id = "macd" then
    macd_signal prices (params.fast.getD 12) (params.slow.getD 26)
      (params.signal_period.getD 9)
  else if strategy_id = "bollinger_bands" then
    bollinger_bands_signal prices (params.period.getD 20) (params.std_dev.getD 2)
  else ⟨"hold", 0⟩

/-! ### MA-crossover evaluation -/

/-- Evaluation of `_sma` at a defined index: the trailing-window mean. -/
theorem sma_getD_some (data : List ℚ) (period i : ℕ)
    (hlen : ¬ data.length < period) (hi : i < data.length) (hip : ¬ i + 1 < period) :
    (_sma data period).getD i none =
      some (((data.drop (i + 1 - period)).take period).sum / (period : ℚ)) := by
  unfold _sma
  rw [if_neg hlen, List.getD_eq_getElem?_getD, List.getElem?_map, List.getElem?_range hi]
  exact if_neg hip

/-- General evaluation of the bullish-crossover branch of
`ma_crossover_signal`: if both MAs are defined on the last two bars, the
previous short MA is `≤` the previous long MA and the current short MA is
`>` the current long MA, the result is a buy at confidence
`round2(min(0.95, 0.6 + |spreadPct|*0.1))`. -/
theorem ma_crossover_buy_eval (prices : List (ℚ × ℚ)) (short_period long_period : ℕ)
    (cs cl ps pl : ℚ)
    (hlen : long_period + 2 ≤ prices.length)
    (hcs : (_sma (prices.map Prod.snd) short_period).getD
      ((prices.map Prod.snd).length - 1) none = some cs)
    (hcl : (_sma (prices.map Prod.snd) long_period).getD
      ((prices.map Prod.snd).length - 1) none = some cl)
    (hps : (_sma (prices.map Prod.snd) short_period).getD
      ((prices.map Prod.snd).length - 2) none = some ps)
    (hpl : (_sma (prices.map Prod.snd) long_period).getD
      ((prices.map Prod.snd).length - 2) none = some pl)
    (hprev : ps ≤ pl) (hcur : cl < cs) :
    ma_crossover_signal prices short_period long_period =
      ⟨"buy", round2 (min (19/20) (3/5 + |(cs - cl) / cl * 100| * (1/10)))⟩ := by
  unfold ma_crossover_signal
  rw [if_neg (not_lt.mpr hlen)]
  dsimp only
  rw [hcs, hcl, hps, hpl]
  dsimp only
  have hle : nanLe (some ps) (some pl) = true := by
    unfold nanLe
    exact decide_eq_true hprev
  rw [hle]
  rw [show decide (cl < cs) = true from decide_eq_true hcur]
  rfl

/-- The uptrending 52-point price series of Scenario D: 51 flat bars then
an up-move, producing a default-parameter (20/50) bullish crossover on
the final two bars. -/
def data52 : List ℚ :=
  [1, 1, 1, 1, 1, 1, 1, 1, 1, 1, 1, 1, 1, 1, 1, 1, 1, 1, 1, 1, 1, 1, 1, 1, 1, 1,
   1, 1, 1, 1, 1, 1, 1, 1, 1, 1, 1, 1, 1, 1, 1, 1, 1, 1, 1, 1, 1, 1, 1, 1, 1, 2]

/-- The series as `(timestamp, price)` pairs. -/
def prices52 : List (ℚ × ℚ) := data52.map fun p => ((0 : ℚ), p)

theorem prices52_snd : prices52.map Prod.snd = data52 := by
  unfold prices52
  rw [List.map_map]
  exact List.map_id data52

theorem sma52_short_last : (_sma data52 20).getD 51 none = some (21/20) := by
  rw [sma_getD_some data52 20 51 (by decide) (by decide) (by decide)]
  rw [show (data52.drop (51 + 1 - 20)).take 20 =
    [1, 1, 1, 1, 1, 1, 1, 1, 1, 1, 1, 1, 1, 1, 1, 1, 1, 1, 1, 2] from rfl]
  norm_num [List.sum_cons]

theorem sma52_long_last : (_sma data52 50).getD 51 none = some (51/50) := by
  rw [sma_getD_some data52 50 51 (by decide) (by decide) (by decide)]
  rw [show (data52.drop (51 + 1 - 50)).take 50 =
    [1, 1, 1, 1, 1, 1, 1, 1, 1, 1, 1, 1, 1, 1, 1, 1, 1, 1, 1, 1, 1, 1, 1, 1, 1,
     1, 1, 1, 1, 1, 1, 1, 1, 1, 1, 1, 1, 1, 1, 1, 1, 1, 1, 1, 1, 1, 1, 1, 1, 2] from rfl]
  norm_num [List.sum_cons]

theorem sma52_short_prev : (_sma data52 20).getD 50 none = some 1 := by
  rw [sma_getD_some data52 20 50 (by decide) (by decide) (by decide)]
  rw [show (data52.drop (50 + 1 - 20)).take 20 = List.replicate 20 (1 : ℚ) from rfl]
  norm_num [List.sum_replicate]

theorem sma52_long_prev : (_sma data52 50).getD 50 none = some 1 := by
  rw [sma_getD_some data52 50 50 (by decide) (by decide) (by decide)]
  rw [show (data52.drop (50 + 1 - 50)).take 50 = List.replicate 50 (1 : ℚ) from rfl]
  norm_num [List.sum_replicate]

theorem round2_spread52 : round2 (min (19/20) (3/5 + |((21:ℚ)/20 - 51/50) / (51/50) * 100| * (1/10))) = 89/100 := by
  rw [show ((3:ℚ)/5 + |((21:ℚ)/20 - 51/50) / (51/50) * 100| * (1/10)) = 76/85 by
    rw [show ((21:ℚ)/20 - 51/50) / (51/50) * 100 = 50/17 by norm_num]
    rw [show |(50:ℚ)/17| = 50/17 from abs_of_pos (by norm_num)]
    norm_num]
  rw [min_eq_right (by norm_num : (76:ℚ)/85 ≤ 19/20)]
  unfold round2 roundHalfEven
  rw [show ((100:ℚ) * (76/85)) = 1520/17 by norm_num]
  rw [show ⌊(1520/17 : ℚ)⌋ = 89 by norm_num]
  rw [if_pos (by norm_num : (1520:ℚ)/17 - (89:ℤ) < 1/2)]
  norm_num

/-- C8 counterexample: on the concrete 52-point uptrending series with a
default-parameter crossover on the final two bars, `ma_crossover_signal`
returns a buy whose confidence is the *rounded* value `0.89`, while
`min(0.95, 0.6 + |spreadPct|*0.1)` is `76/85 ≈ 0.8941`; the two differ,
so the claim's exact confidence formula is false. -/
theorem C8_ma_crossover_confidence_counterexample :
    ma_crossover_signal prices52 20 50 = ⟨"buy", 89/100⟩ ∧
    min ((19:ℚ)/20) (3/5 + |((21:ℚ)/20 - 51/50) / (51/50) * 100| * (1/10)) = 76/85 ∧
    ¬ ((89:ℚ)/100 = 76/85) := by
  refine ⟨?_, ?_, by norm_num⟩
  · rw [ma_crossover_buy_eval prices52 20 50 (21/20) (51/50) 1 1
      (by decide)
      (by rw [prices52_snd, show data52.length - 1 = 51 from by decide]
          exact sma52_short_last)
      (by rw [prices52_snd, show data52.length - 1 = 51 from by decide]
          exact sma52_long_last)
      (by rw [prices52_snd, show data52.length - 2 = 50 from by decide]
          exact sma52_short_prev)
      (by rw [prices52_snd, show data52.length - 2 = 50 from by decide]
          exact sma52_long_prev)
      (le_refl 1) (by norm_num)]
    rw [round2_spread52]
  · rw [show ((21:ℚ)/20 - 51/50) / (51/50) * 100 = 50/17 by norm_num]
    rw [show |(50:ℚ)/17| = 50/17 from abs_of_pos (by norm_num)]
    rw [show (3:ℚ)/5 + 50/17 * (1/10) = 76/85 by norm_num]
    exact min_eq_right (by norm_num : (76:ℚ)/85 ≤ 19/20)

/-- C8 amended: on a bullish crossover (previous short MA `≤` previous
long MA, current short MA `>` current long MA, both defined, at least
`long_period + 2` bars) `ma_crossover_signal` returns a buy whose
confidence is `round2(min(0.95, 0.6 + |spreadPct|*0.1))` — the
two-decimal rounding of the claim's formula; on the concrete 52-point
uptrending series this confidence is 0.89, inside `(0.6, 0.95]`. -/
theorem C8_ma_crossover_buy (prices : List (ℚ × ℚ)) (short_period long_period : ℕ)
    (cs cl ps pl : ℚ)
    (hlen : long_period + 2 ≤ prices.length)
    (hcs : (_sma (prices.map Prod.snd) short_period).getD
      ((prices.map Prod.snd).length - 1) none = some cs)
    (hcl : (_sma (prices.map Prod.snd) long_period).getD
      ((prices.map Prod.snd).length - 1) none = some cl)
    (hps : (_sma (prices.map Prod.snd) short_period).getD
      ((prices.map Prod.snd).length - 2) none = some ps)
    (hpl : (_sma (prices.map Prod.snd) long_period).getD
      ((prices.map Prod.snd).length - 2) none = some pl)
    (hprev : ps ≤ pl) (hcur : cl < cs) :
    ma_crossover_signal prices short_period long_period =
      ⟨"buy", round2 (min (19/20) (3/5 + |(cs - cl) / cl * 100| * (1/10)))⟩ :=
  ma_crossover_buy_eval prices short_period long_period cs cl ps pl
    hlen hcs hcl hps hpl hprev hcur

/-- C8 amended witness: Scenario D on the concrete series — the crossover
hypotheses hold, the theorem yields the buy signal, and the resulting
confidence 0.89 lies in `(0.6, 0.95]`. -/
theorem C8_ma_crossover_buy_witness :
    50 + 2 ≤ prices52.length ∧
    (1 : ℚ) ≤ 1 ∧ (51:ℚ)/50 < 21/20 ∧
    ma_crossover_signal prices52 20 50 =
      ⟨"buy", round2 (min (19/20) (3/5 + |((21:ℚ)/20 - 51/50) / (51/50) * 100| * (1/10)))⟩ ∧
    (3:ℚ)/5 < 89/100 ∧ (89:ℚ)/100 ≤ 19/20 := by
  refine ⟨by decide, le_refl 1, by norm_num, ?_, by norm_num, by norm_num⟩
  exact C8_ma_crossover_buy prices52 20 50 (21/20) (51/50) 1 1
    (by decide)
    (by rw [prices52_snd, show data52.length - 1 = 51 from by decide]
        exact sma52_short_last)
    (by rw [prices52_snd, show data52.length - 1 = 51 from by decide]
        exact sma52_long_last)
    (by rw [prices52_snd, show data52.length - 2 = 50 from by decide]
        exact sma52_short_prev)
    (by rw [prices52_snd, show data52.length - 2 = 50 from by decide]
        exact sma52_long_prev)
    (le_refl 1) (by norm_num)

/-! ## Backtester (`strategies.backtest`, lines 308-428) -/

/-- One simulated trade record of the backtest (`type` is `"buy"` or
`"sell"`; buys carry the signal confidence, sells the realized pnl). -/
structure BTrade where
  type : String
  price : ℚ
  amount : ℚ
  timestamp : ℚ
  confidence : Option ℚ
  pnl : Option ℚ
deriving DecidableEq

/-- The loop state of `backtest`: capital, open position (amount and
entry price), the per-bar equity curve, and the win/loss tallies. -/
structure BTState where
  capital : ℚ
  position : ℚ
  entry_price : ℚ
  equity_curve : List ℚ
  trades : List BTrade
  wins : ℕ
  losses : ℕ
  total_profit : ℚ
  total_loss : ℚ
deriving DecidableEq

/-- The loop state at entry: `capital = initial_capital`, no position,
empty curves and tallies. -/
def initBTState (initial_capital : ℚ) : BTState :=
  ⟨initial_capital, 0, 0, [], [], 0, 0, 0, 0⟩

/-- One iteration of the backtest loop (lines 337-377) at bar `i`,
parametric in the signal generator: evaluate the signal on the window
`prices[max(0, i-200) : i+1]`, optionally open (buy, confidence > 0.4, no
position) or close (sell while holding) the position, then append the
pre-trade portfolio value to the equity curve. -/
def btStep (sigf : List (ℚ × ℚ) → Signal) (prices : List (ℚ × ℚ))
    (st : BTState) (i : ℕ) : BTState :=
  let sig := sigf ((prices.drop (i - 200)).take (i + 1 - (i - 200)))
  let current_price := (prices.getD i (0, 0)).2
  let portfolio_value := st.capital + st.position * current_price
  let st' :=
    if sig.signal = "buy" ∧ 2/5 < sig.confidence ∧ st.position = 0 then
      let invest := st.capital * (1/10 + sig.confidence * (3/20))
      { st with
        capital := st.capital - invest
        position := invest / current_price
        entry_price := current_price
        trades := st.trades ++ [(⟨"buy", round2 current_price,
          round6 (invest / current_price), (prices.getD i (0, 0)).1,
          some sig.confidence, none⟩ : BTrade)] }
    else if sig.signal = "sell" ∧ 0 < st.position then
      let pnl := (current_price - st.entry_price) * st.position
      let st2 := { st with
        capital := st.capital + st.position * current_price
        trades := st.trades ++ [(⟨"sell", round2 current_price,
          round6 st.position, (prices.getD i (0, 0)).1, none, some (round2 pnl)⟩ : BTrade)]
        position := 0
        entry_price := 0 }
      if 0 < pnl then
        { st2 with wins := st.wins + 1, total_profit := st.total_profit + pnl }
      else
        { st2 with losses := st.losses + 1, total_loss := st.total_loss + |pnl| }
    else st
  { st' with equity_curve := st'.equity_curve ++ [round2 portfolio_value] }

/-- The full loop `for i in range(55, len(prices))`. -/
def btLoop (sigf : List (ℚ × ℚ) → Signal) (prices : List (ℚ × ℚ))
    (st0 : BTState) : BTState :=
  (List.range' 55 (prices.length - 55)).foldl (btStep sigf prices) st0

/-- The max-drawdown fold (lines 382-389): track the running peak
(seeded with the initial capital) and the largest relative decline. -/
def drawdownFold (l : List ℚ) (peak0 : ℚ) : ℚ :=
  (l.foldl (fun pm v =>
    let peak := if pm.1 < v then v else pm.1
    let dd := (peak - v) / peak
    (peak, if pm.2 < dd then dd else pm.2)) ((peak0, 0) : ℚ × ℚ)).2

/-- The consecutive-bar returns (lines 391-396), skipping bars whose
predecessor equity is non-positive. -/
def dailyReturns (l : List ℚ) : List ℚ :=
  (l.zip l.tail).filterMap fun p => if 0 < p.1 then some ((p.2 - p.1) / p.1) else none

/-- `l[::s]`: every `s`-th element starting at index 0. -/
def takeEvery {α : Type} (s : ℕ) : List α → List α
  | [] => []
  | x :: xs => x :: takeEvery s (List.drop (s - 1) xs)
termination_by l => l.length
decreasing_by simp only [List.length_drop, List.length_cons]; omega

/-- `l[-n:]`: the last `n` elements (all of them when `l` is shorter). -/
def lastN {α : Type} (n : ℕ) (l : List α) : List α := l.drop (l.length - n)

/-- The equity-curve downsampling (lines 409-412): stride
`max(1, len//200)`, then append the final value if the stride missed it. -/
def mkSampled (curve : List ℚ) : List ℚ :=
  let sampled := takeEvery (max 1 (curve.length / 200)) curve
  match curve.getLast? with
  | some lastv => if sampled.getLast? ≠ some lastv then sampled ++ [lastv] else sampled
  | none => sampled

/-- The result record of `backtest` (lines 414-428). -/
structure BacktestResult where
  strategy : String
  initial_capital : ℚ
  final_value : ℚ
  total_return : ℚ
  max_drawdown : ℚ
  sharpe_ratio : ℚ
  total_trades : ℕ
  wins : ℕ
  losses : ℕ
  win_rate : ℚ
  profit_factor : ℚ
  equity_curve : List ℚ
  trades : List BTrade

/-- `strategies.backtest`: error for fewer than 60 price points, else the
simulated run and its statistics.  The Sharpe ratio passes through `ℝ`
(`np.sqrt`), hence the noncomputable rounding. -/
noncomputable def backtest (strategy_id : String) (prices : List (ℚ × ℚ))
    (initial_capital : ℚ) (params : Params) : Except String BacktestResult :=
  if prices.length < 60 then .error "Need at least 60 data points for backtesting"
  else
    let st := btLoop (fun w => get_signal strategy_id w params) prices
      (initBTState initial_capital)
    let data := prices.map Prod.snd
    let final_value := st.capital + st.position * data.getD (data.length - 1) 0
    let total_return := (final_value - initial_capital) / initial_capital * 100
    let max_drawdown := drawdownFold st.equity_curve initial_capital
    let dr := dailyReturns st.equity_curve
    let sharpe : ℝ :=
      if dr.length ≠ 0 then
        if 0 < npStd dr then ((listMean dr : ℝ) / npStd dr) * Real.sqrt 252 else 0
      else 0
    let total_trades := st.wins + st.losses
    let win_rate := if 0 < total_trades then (st.wins : ℚ) / total_trades * 100 else 0
    let profit_factor :=
      if 0 < st.total_loss then st.total_profit / st.total_loss
      else if 0 < st.total_profit then (999 : ℚ) else 0
    .ok {
      strategy := strategy_id
      initial_capital := initial_capital
      final_value := round2 final_value
      total_return := round2 total_return
      max_drawdown := round2 (max_drawdown * 100)
      sharpe_ratio := round2R sharpe
      total_trades := total_trades
      wins := st.wins
      losses := st.losses
      win_rate := round1 win_rate
      profit_factor := round2 profit_factor
      equity_curve := mkSampled st.equity_curve
      trades := lastN 20 st.trades }

/-! ### Backtest structural lemmas -/

theorem btStep_equity_length (sigf : List (ℚ × ℚ) → Signal) (prices : List (ℚ × ℚ))
    (st : BTState) (i : ℕ) :
    (btStep sigf prices st i).equity_curve.length = st.equity_curve.length + 1 := by
  unfold btStep
  dsimp only
  split_ifs <;> simp

theorem btLoop_equity_length (sigf : List (ℚ × ℚ) → Signal) (prices : List (ℚ × ℚ)) :
    ∀ (l : List ℕ) (st : BTState),
      (l.foldl (btStep sigf prices) st).equity_curve.length =
        st.equity_curve.length + l.length := by
  intro l
  induction l with
  | nil => intro st; rfl
  | cons i l ih =>
    intro st
    show ((l.foldl (btStep sigf prices) (btStep sigf prices st i)).equity_curve.length) = _
    rw [ih, btStep_equity_length]
    simp only [List.length_cons]
    omega

theorem takeEvery_one {α : Type} : ∀ l : List α, takeEvery 1 l = l := by
  intro l
  induction l with
  | nil => rw [takeEvery]
  | cons x xs ih =>
    rw [takeEvery]
    simp only [Nat.sub_self, List.drop_zero]
    rw [ih]

theorem takeEvery_length_aux {α : Type} (s : ℕ) (hs : 1 ≤ s) :
    ∀ (n : ℕ) (l : List α), l.length = n →
      (takeEvery s l).length = (n + s - 1) / s := by
  intro n
  induction n using Nat.strong_induction_on with
  | _ n ih =>
    intro l hl
    cases l with
    | nil =>
      simp only [List.length_nil] at hl
      subst hl
      rw [takeEvery]
      show (0 : ℕ) = (0 + s - 1) / s
      rw [Nat.div_eq_of_lt (by omega)]
    | cons x xs =>
      simp only [List.length_cons] at hl
      rw [takeEvery]
      simp only [List.length_cons]
      have hlt : (List.drop (s - 1) xs).length < n := by
        simp only [List.length_drop]
        omega
      rw [ih _ hlt _ rfl]
      simp only [List.length_drop]
      by_cases hx : s - 1 ≤ xs.length
      · have h1 : xs.length - (s - 1) + s - 1 = xs.length := by omega
        rw [h1]
        have h2 : n + s - 1 = xs.length + s := by omega
        rw [h2, Nat.add_div_right _ (by omega)]
      · have h1 : xs.length - (s - 1) = 0 := by omega
        rw [h1]
        rw [Nat.div_eq_of_lt (by omega : 0 + s - 1 < s)]
        have h2 : n + s - 1 = xs.length + s := by omega
        rw [h2, Nat.add_div_right _ (by omega)]
        rw [Nat.div_eq_of_lt (by omega : xs.length < s)]

theorem takeEvery_length {α : Type} (s : ℕ) (hs : 1 ≤ s) (l : List α) :
    (takeEvery s l).length = (l.length + s - 1) / s :=
  takeEvery_length_aux s hs l.length l rfl

theorem mem_takeEvery_aux {α : Type} (s : ℕ) :
    ∀ (n : ℕ) (l : List α), l.length = n → ∀ x, x ∈ takeEvery s l → x ∈ l := by
  intro n
  induction n using Nat.strong_induction_on with
  | _ n ih =>
    intro l hl x hx
    cases l with
    | nil => rw [takeEvery] at hx; exact absurd hx (List.not_mem_nil x)
    | cons y ys =>
      simp only [List.length_cons] at hl
      rw [takeEvery] at hx
      rcases List.mem_cons.mp hx with h | h
      · rw [h]; exact List.mem_cons_self y ys
      · have hlt : (List.drop (s - 1) ys).length < n := by
          simp only [List.length_drop]; omega
        exact List.mem_cons_of_mem y
          (List.mem_of_mem_drop (ih _ hlt _ rfl x h))

theorem lastN_length_le {α : Type} (n : ℕ) (l : List α) : (lastN n l).length ≤ n := by
  unfold lastN
  simp only [List.length_drop]
  omega

theorem mkSampled_eq_self (curve : List ℚ) (h : curve.length ≤ 399) :
    mkSampled curve = curve := by
  unfold mkSampled
  rw [show max 1 (curve.length / 200) = 1 by omega, takeEvery_one]
  cases hc : curve.getLast? with
  | none => rfl
  | some lastv =>
    dsimp only
    rw [if_neg (by rw [hc]; exact fun h => h rfl)]

theorem mkSampled_length_le (curve : List ℚ) : (mkSampled curve).length ≤ 399 := by
  by_cases h : curve.length ≤ 399
  · rw [mkSampled_eq_self curve h]; exact h
  · push_neg at h
    have hs2 : 2 ≤ curve.length / 200 := by omega
    have hsampled : (takeEvery (max 1 (curve.length / 200)) curve).length ≤ 300 := by
      rw [show max 1 (curve.length / 200) = curve.length / 200 by omega]
      rw [takeEvery_length _ (by omega) curve]
      have h1 : curve.length + curve.length / 200 - 1 ≤
          (curve.length / 200) * 201 + 198 := by omega
      calc (curve.length + curve.length / 200 - 1) / (curve.length / 200)
          ≤ ((curve.length / 200) * 201 + 198) / (curve.length / 200) :=
            Nat.div_le_div_right h1
        _ = 201 + 198 / (curve.length / 200) := by
            rw [Nat.mul_add_div (by omega)]
        _ ≤ 201 + 99 := by
            have : 198 / (curve.length / 200) ≤ 198 / 2 :=
              Nat.div_le_div_left hs2 (by norm_num)
            omega
        _ ≤ 300 := by norm_num
    unfold mkSampled
    cases hc : curve.getLast? with
    | none => exact le_trans hsampled (by norm_num)
    | some lastv =>
      dsimp only
      by_cases hne : (takeEvery (max 1 (curve.length / 200)) curve).getLast? ≠ some lastv
      · rw [if_pos hne]
        simp only [List.length_append, List.length_cons, List.length_nil]
        omega
      · rw [if_neg hne]
        exact le_trans hsampled (by norm_num)

theorem mkSampled_getLast (curve : List ℚ) :
    (mkSampled curve).getLast? = curve.getLast? := by
  unfold mkSampled
  cases hc : curve.getLast? with
  | none =>
    have : curve = [] := List.getLast?_eq_none_iff.mp hc
    subst this
    dsimp only
    rw [show takeEvery (max 1 (([] : List ℚ).length / 200)) ([] : List ℚ) = [] from by
      rw [takeEvery]]
    rfl
  | some lastv =>
    dsimp only
    by_cases hne : (takeEvery (max 1 (curve.length / 200)) curve).getLast? ≠ some lastv
    · rw [if_pos hne]
      exact List.getLast?_concat _
    · rw [if_neg hne]
      push_neg at hne
      exact hne

theorem mem_mkSampled (curve : List ℚ) (x : ℚ) (h : x ∈ mkSampled curve) : x ∈ curve := by
  unfold mkSampled at h
  cases hc : curve.getLast? with
  | none =>
    rw [hc] at h
    exact mem_takeEvery_aux _ curve.length curve rfl x h
  | some lastv =>
    rw [hc] at h
    dsimp only at h
    by_cases hne : (takeEvery (max 1 (curve.length / 200)) curve).getLast? ≠ some lastv
    · rw [if_pos hne] at h
      rcases List.mem_append.mp h with h | h
      · exact mem_takeEvery_aux _ curve.length curve rfl x h
      · rw [List.mem_singleton.mp h]
        exact List.mem_of_getLast?_eq_some hc
    · rw [if_neg hne] at h
      exact mem_takeEvery_aux _ curve.length curve rfl x h

/-! ### Evaluation of the no-trade (hold) path -/

theorem round2_zero : round2 0 = 0 := by
  unfold round2 roundHalfEven
  norm_num

theorem round1_zero : round1 0 = 0 := by
  unfold round1 roundHalfEven
  norm_num

theorem round2_10000 : round2 10000 = 10000 := by
  unfold round2 roundHalfEven
  norm_num

theorem round2R_zero : round2R 0 = 0 := by
  unfold round2R roundHalfEvenR
  rw [mul_zero, Int.floor_zero]
  norm_num

theorem get_signal_unknown (strategy_id : String) (prices : List (ℚ × ℚ)) (params : Params)
    (h1 : strategy_id ≠ "ma_crossover") (h2 : strategy_id ≠ "rsi")
    (h3 : strategy_id ≠ "macd") (h4 : strategy_id ≠ "bollinger_bands") :
    get_signal strategy_id prices params = ⟨"hold", 0⟩ := by
  unfold get_signal
  rw [if_neg h1, if_neg h2, if_neg h3, if_neg h4]

theorem btStep_hold (sigf : List (ℚ × ℚ) → Signal) (prices : List (ℚ × ℚ))
    (st : BTState) (i : ℕ)
    (hsig : sigf ((prices.drop (i - 200)).take (i + 1 - (i - 200))) = ⟨"hold", 0⟩) :
    btStep sigf prices st i =
      { st with equity_curve := st.equity_curve ++
          [round2 (st.capital + st.position * (prices.getD i (0, 0)).2)] } := by
  unfold btStep
  rw [hsig]
  dsimp only
  rw [if_neg (fun h => absurd h.1 (by decide)),
    if_neg (fun h => absurd h.1 (by decide))]

theorem btLoop_hold_fold (sigf : List (ℚ × ℚ) → Signal) (prices : List (ℚ × ℚ))
    (hsig : ∀ w, sigf w = ⟨"hold", 0⟩) :
    ∀ (l : List ℕ) (st : BTState),
      l.foldl (btStep sigf prices) st =
        { st with equity_curve := (st.equity_curve ++
            l.map (fun i => round2 (st.capital + st.position * (prices.getD i (0, 0)).2))) } := by
  intro l
  induction l with
  | nil =>
    intro st
    simp
  | cons i l ih =>
    intro st
    show l.foldl (btStep sigf prices) (btStep sigf prices st i) = _
    rw [btStep_hold sigf prices st i (hsig _), ih]
    cases st
    simp [List.append_assoc]

theorem drawdownFold_replicate (x : ℚ) (n : ℕ) :
    drawdownFold (List.replicate n x) x = 0 := by
  unfold drawdownFold
  have haux : ∀ m, (List.replicate m x).foldl
      (fun pm v =>
        let peak := if pm.1 < v then v else pm.1
        let dd := (peak - v) / peak
        (peak, if pm.2 < dd then dd else pm.2)) ((x, 0) : ℚ × ℚ) = (x, 0) := by
    intro m
    induction m with
    | zero => rfl
    | succ k ih =>
      rw [List.replicate_succ, List.foldl_cons]
      refine Eq.trans (congrArg (fun s : ℚ × ℚ =>
        List.foldl (fun pm v =>
          let peak := if pm.1 < v then v else pm.1
          let dd := (peak - v) / peak
          (peak, if pm.2 < dd then dd else pm.2)) s (List.replicate k x)) ?_) ih
      dsimp only
      rw [if_neg (lt_irrefl x), sub_self, zero_div, if_neg (lt_irrefl 0)]
  rw [haux]

theorem dailyReturns_replicate (x : ℚ) (hx : 0 < x) :
    ∀ n, dailyReturns (List.replicate (n + 1) x) = List.replicate n 0 := by
  intro n
  induction n with
  | zero => rfl
  | succ m ih =>
    have h2 : List.replicate (m + 1) x = x :: List.replicate m x := rfl
    unfold dailyReturns at ih ⊢
    rw [h2] at ih
    rw [show List.replicate (m + 1 + 1) x = x :: x :: List.replicate m x from rfl]
    show List.filterMap _ ((x, x) :: (x :: List.replicate m x).zip (List.replicate m x)) = _
    rw [List.filterMap_cons]
    rw [show (if 0 < ((x, x) : ℚ × ℚ).1
        then some ((((x, x) : ℚ × ℚ).2 - ((x, x) : ℚ × ℚ).1) / ((x, x) : ℚ × ℚ).1)
        else none) = some 0 from by
      dsimp only
      rw [if_pos hx, sub_self, zero_div]]
    show (0 : ℚ) :: List.filterMap _ ((x :: List.replicate m x).zip (List.replicate m x)) = _
    rw [show (x :: List.replicate m x).zip (List.replicate m x) =
      (x :: List.replicate m x).zip ((x :: List.replicate m x).tail) from rfl]
    rw [ih]
    rfl

theorem listMean_replicate_zero (m : ℕ) : listMean (List.replicate m (0 : ℚ)) = 0 := by
  unfold listMean
  rw [List.sum_replicate, smul_zero, zero_div]

theorem popVar_replicate_zero (m : ℕ) : popVar (List.replicate m (0 : ℚ)) = 0 := by
  unfold popVar
  rw [List.map_replicate, listMean_replicate_zero]
  norm_num

theorem npStd_replicate_zero (m : ℕ) : npStd (List.replicate m (0 : ℚ)) = 0 := by
  unfold npStd
  rw [popVar_replicate_zero]
  rw [Rat.cast_zero]
  exact Real.sqrt_zero

/-- For a strategy identifier outside the dispatch table, the whole
backtest run holds throughout: capital stays 10000, no trades, a flat
equity curve, and every statistic zero. -/
theorem backtest_unknown (strategy_id : String) (prices : List (ℚ × ℚ)) (params : Params)
    (h1 : strategy_id ≠ "ma_crossover") (h2 : strategy_id ≠ "rsi")
    (h3 : strategy_id ≠ "macd") (h4 : strategy_id ≠ "bollinger_bands")
    (hlen : 60 ≤ prices.length) :
    backtest strategy_id prices 10000 params = .ok
      { strategy := strategy_id
        initial_capital := 10000
        final_value := 10000
        total_return := 0
        max_drawdown := 0
        sharpe_ratio := 0
        total_trades := 0
        wins := 0
        losses := 0
        win_rate := 0
        profit_factor := 0
        equity_curve := mkSampled (List.replicate (prices.length - 55) 10000)
        trades := [] } := by
  have hsig : ∀ w, get_signal strategy_id w params = ⟨"hold", 0⟩ :=
    fun w => get_signal_unknown strategy_id w params h1 h2 h3 h4
  have hst : btLoop (fun w => get_signal strategy_id w params) prices (initBTState 10000) =
      ⟨10000, 0, 0, List.replicate (prices.length - 55) 10000, [], 0, 0, 0, 0⟩ := by
    unfold btLoop
    rw [btLoop_hold_fold _ _ hsig]
    unfold initBTState
    dsimp only
    have hmap : (List.range' 55 (prices.length - 55)).map
        (fun i => round2 ((10000 : ℚ) + 0 * (prices.getD i (0, 0)).2)) =
        List.replicate (prices.length - 55) 10000 := by
      rw [List.map_congr_left (g := fun _ => (10000 : ℚ))
        (fun i _ => by rw [zero_mul, add_zero, round2_10000])]
      rw [List.map_const', List.length_range']
    rw [hmap]
    rfl
  unfold backtest
  rw [if_neg (not_lt.mpr hlen)]
  rw [hst]
  dsimp only
  simp only [zero_mul, add_zero, sub_self, zero_div]
  rw [round2_10000]
  rw [show prices.length - 55 = (prices.length - 56) + 1 from by omega]
  rw [dailyReturns_replicate 10000 (by norm_num) (prices.length - 56)]
  rw [drawdownFold_replicate]
  rw [npStd_replicate_zero]
  rw [if_neg (lt_irrefl (0 : ℝ))]
  rw [if_pos (by
    simp only [List.length_replicate]
    omega : (List.replicate (prices.length - 56) (0 : ℚ)).length ≠ 0)]
  rw [if_neg (lt_irrefl 0)]
  rw [if_neg (lt_irrefl (0 : ℚ)), if_neg (lt_irrefl (0 : ℚ))]
  rw [zero_mul, round2_zero, round1_zero, round2R_zero]
  rfl

/-! ## Claim theorems on the backtester -/

/-- C6 amended: `backtest` errors exactly when fewer than 60 price
points are supplied; on success the returned trade list has at most 20
entries and the downsampled equity curve has fewer than 400 samples
(up to 399 — not "about 200": with `n` bars the stride is
`max(1, n//200)`, so e.g. 399 bars are returned in full) and always ends
with the final equity value of the full curve. -/
theorem C6_backtest_shape (strategy_id : String) (prices : List (ℚ × ℚ))
    (initial_capital : ℚ) (params : Params) :
    ((∃ r, backtest strategy_id prices initial_capital params = .ok r) ↔
      60 ≤ prices.length) ∧
    (∀ r, backtest strategy_id prices initial_capital params = .ok r →
      r.trades.length ≤ 20 ∧ r.equity_curve.length ≤ 399 ∧
      r.equity_curve.getLast? =
        (btLoop (fun w => get_signal strategy_id w params) prices
          (initBTState initial_capital)).equity_curve.getLast?) := by
  by_cases h60 : prices.length < 60
  · constructor
    · constructor
      · rintro ⟨r, hr⟩
        unfold backtest at hr
        rw [if_pos h60] at hr
        exact absurd hr (by simp)
      · intro h; omega
    · intro r hr
      unfold backtest at hr
      rw [if_pos h60] at hr
      exact absurd hr (by simp)
  · push_neg at h60
    constructor
    · refine ⟨fun _ => h60, fun _ => ?_⟩
      unfold backtest
      rw [if_neg (not_lt.mpr h60)]
      exact ⟨_, rfl⟩
    · intro r hr
      unfold backtest at hr
      rw [if_neg (not_lt.mpr h60)] at hr
      have hr' := Except.ok.inj hr
      subst hr'
      exact ⟨lastN_length_le 20 _, mkSampled_length_le _, mkSampled_getLast _⟩

/-- A concrete 454-point price series: the backtest loop produces
`454 - 55 = 399` equity samples. -/
def prices454 : List (ℚ × ℚ) := List.replicate 454 (0, 1)

/-- C6 counterexample: on a 454-point series (with a strategy that never
trades) the returned equity curve has 399 samples — the stride
`max(1, 399//200) = 1` downsamples nothing, so the curve is not capped
at about 200 samples. -/
theorem C6_equity_curve_length_counterexample :
    Except.map (fun r : BacktestResult => r.equity_curve.length)
      (backtest "unknown" prices454 10000 {}) = .ok 399 ∧ 200 < 399 := by
  refine ⟨?_, by norm_num⟩
  rw [backtest_unknown "unknown" prices454 {} (by decide) (by decide) (by decide) (by decide)
    (by rw [show prices454.length = 454 from by
        unfold prices454; rw [List.length_replicate]]
        omega)]
  rw [show prices454.length - 55 = 399 from by
    rw [show prices454.length = 454 from by unfold prices454; rw [List.length_replicate]]]
  rw [mkSampled_eq_self _ (by rw [List.length_replicate])]
  show Except.ok (List.replicate 399 (10000 : ℚ)).length = Except.ok 399
  rw [List.length_replicate]

/-- C6 amended witness: the shape theorem applied to the concrete
454-point series, with a concrete successful run. -/
theorem C6_backtest_shape_witness :
    60 ≤ prices454.length ∧
    ((∃ r, backtest "unknown" prices454 10000 {} = .ok r) ↔ 60 ≤ prices454.length) ∧
    (∃ r, backtest "unknown" prices454 10000 {} = .ok r ∧
      r.trades.length ≤ 20 ∧ r.equity_curve.length ≤ 399) := by
  have hlen : (60 : ℕ) ≤ prices454.length := by
    rw [show prices454.length = 454 from by unfold prices454; rw [List.length_replicate]]
    omega
  have hok := backtest_unknown "unknown" prices454 {} (by decide) (by decide) (by decide)
    (by decide) hlen
  have h := C6_backtest_shape "unknown" prices454 10000 {}
  exact ⟨hlen, h.1, ⟨_, hok, (h.2 _ hok).1, (h.2 _ hok).2.1⟩⟩

/-- C10: for a strategy identifier outside
`{ma_crossover, rsi, macd, bollinger_bands}` and any series of at least
60 points, `backtest` does not error: `get_signal` yields hold/0 at every
bar, so the run has zero total trades, an empty trade list, every equity
sample equal to the initial capital (10000), and total return 0. -/
theorem C10_unknown_strategy_backtest (strategy_id : String) (prices : List (ℚ × ℚ))
    (params : Params)
    (h1 : strategy_id ≠ "ma_crossover") (h2 : strategy_id ≠ "rsi")
    (h3 : strategy_id ≠ "macd") (h4 : strategy_id ≠ "bollinger_bands")
    (hlen : 60 ≤ prices.length) :
    (∀ w q, get_signal strategy_id w q = ⟨"hold", 0⟩) ∧
    ∃ r, backtest strategy_id prices 10000 params = .ok r ∧
      r.total_trades = 0 ∧ r.trades = [] ∧
      (∀ v ∈ r.equity_curve, v = 10000) ∧ r.total_return = 0 := by
  refine ⟨fun w q => get_signal_unknown strategy_id w q h1 h2 h3 h4,
    ⟨_, backtest_unknown strategy_id prices params h1 h2 h3 h4 hlen, rfl, rfl, ?_, rfl⟩⟩
  intro v hv
  exact List.eq_of_mem_replicate (mem_mkSampled _ _ hv)

/-- A concrete 60-point series for the C10 witness. -/
def prices60 : List (ℚ × ℚ) := List.replicate 60 (0, 1)

/-- C10 witness: the unknown strategy `"momentum"` on a 60-point series. -/
theorem C10_unknown_strategy_backtest_witness :
    ("momentum" ≠ "ma_crossover" ∧ "momentum" ≠ "rsi" ∧ "momentum" ≠ "macd" ∧
      "momentum" ≠ "bollinger_bands") ∧ 60 ≤ prices60.length ∧
    (∃ r, backtest "momentum" prices60 10000 {} = .ok r ∧
      r.total_trades = 0 ∧ r.trades = [] ∧
      (∀ v ∈ r.equity_curve, v = 10000) ∧ r.total_return = 0) := by
  have hlen : (60 : ℕ) ≤ prices60.length := by
    rw [show prices60.length = 60 from by unfold prices60; rw [List.length_replicate]]
  exact ⟨⟨by decide, by decide, by decide, by decide⟩, hlen,
    (C10_unknown_strategy_backtest "momentum" prices60 {} (by decide) (by decide)
      (by decide) (by decide) hlen).2⟩

end Forex
